import Mathlib

/-!
Verification of the Werewolf game-orchestration engine
(`src/green/environment.py`).  All Python strings are modelled as
`List Char`; Python string methods (`strip`, `lower`, `in`, `split`,
`startswith`) are given faithful character-level models below.
-/

set_option maxRecDepth 4096

/-- Model of Python's `str.isspace` characters relevant to `str.strip()`. -/
def pyIsSpace (c : Char) : Bool :=
  c = ' ' || c = '\t' || c = '\n' || c = '\x0d' || c = '\x0b' || c = '\x0c'

/-- Model of Python's `str.strip()` (strip whitespace from both ends). -/
def pyStrip (s : List Char) : List Char :=
  ((s.dropWhile pyIsSpace).reverse.dropWhile pyIsSpace).reverse

/-- Model of Python's `str.lower()` (ASCII case folding, as in `Char.toLower`). -/
def pyLower (s : List Char) : List Char :=
  s.map Char.toLower

/-- Model of Python's `needle in hay` substring test. -/
def containsSub (needle hay : List Char) : Bool :=
  match hay with
  | [] => needle.isEmpty
  | _ :: t => needle.isPrefixOf hay || containsSub needle t

/-- Model of Python's `s.startswith(p)`. -/
def startsWithStr (p s : List Char) : Bool :=
  p.isPrefixOf s

/-- Model of Python's `s.split(":")`. -/
def splitColon : List Char → List (List Char)
  | [] => [[]]
  | c :: rest =>
    if c = ':' then [] :: splitColon rest
    else
      match splitColon rest with
      | [] => [[c]]
      | h :: t => (c :: h) :: t

/-- Model of Python's `", ".join(names)`. -/
def joinComma : List (List Char) → List Char
  | [] => []
  | [n] => n
  | n :: rest => n ++ ", ".data ++ joinComma rest

/-- The four game roles (assigned from the fixed role strings in
`_assign_roles`). -/
inductive Role
  | Werewolf
  | Seer
  | Medic
  | Villager
deriving DecidableEq, Repr

/-- Rendering of a role back to its Python string, used inside the
colon-delimited event-log records. -/
def roleStr : Role → List Char
  | .Werewolf => "Werewolf".data
  | .Seer => "Seer".data
  | .Medic => "Medic".data
  | .Villager => "Villager".data

/-- Model of `AsyncPlayer`: name, role, alive flag, remote flag.  The
messenger / agent capability is irrelevant to the claims and omitted. -/
structure Player where
  name : List Char
  role : Role
  is_alive : Bool
  is_remote : Bool
deriving DecidableEq, Repr

/-- Structured form of the colon-delimited records appended to
`self.game_log`. -/
inductive Rec
  | phase (day : Nat) (isDay : Bool)
  | vote (voter target : List Char)
  | medicProtects (medic target : List Char)
  | seerSees (seer target : List Char) (role : Role)
  | saved (target : List Char)
  | killed (target : List Char) (role : Role)
  | eliminated (target : List Char) (role : Role)
deriving DecidableEq, Repr

/-- Rendering of a structured record to the exact string the code appends. -/
def renderRec : Rec → List Char
  | .phase d isDay =>
    "PHASE:".data ++ (toString d).data ++ ":".data ++
      (if isDay then "DAY".data else "NIGHT".data)
  | .vote v t => "VOTE:".data ++ v ++ ":".data ++ t
  | .medicProtects m t => "MEDIC_PROTECTS:".data ++ m ++ ":".data ++ t
  | .seerSees s t r => "SEER_SEES:".data ++ s ++ ":".data ++ t ++ ":".data ++ roleStr r
  | .saved t => "SAVED:".data ++ t
  | .killed t r => "KILLED:".data ++ t ++ ":".data ++ roleStr r
  | .eliminated t r => "ELIMINATED:".data ++ t ++ ":".data ++ roleStr r

/-- `DEFAULT_PLAYERS` from the source. -/
def defaultPlayers : List (List Char) :=
  ["Alice".data, "Bob".data, "Charlie".data, "David".data, "Eva".data,
   "Frank".data, "Grace".data, "Hannah".data, "Ian".data, "Judy".data]

/-- The role list `["Werewolf", "Seer", "Medic"] + ["Villager"] * (n - 3)`
before shuffling (Python's negative list-repeat gives `[]`, matching
truncated `Nat` subtraction). -/
def rolesList (n : Nat) : List Role :=
  [Role.Werewolf, Role.Seer, Role.Medic] ++ List.replicate (n - 3) Role.Villager

/-- Build the player list from the zipped `(name, role, url)` triples.
Python's `zip` truncates to the shortest input, as `List.zip` does.
`is_remote` holds exactly when the agent url is present. -/
def zipPlayers (names : List (List Char)) (roles : List Role)
    (urls : List (Option (List Char))) : List Player :=
  ((names.zip roles).zip urls).map
    (fun x => { name := x.1.1, role := x.1.2, is_alive := true,
                is_remote := x.2.isSome })

/-- Model of `AsyncGameEnvironment._assign_roles`.  `participants` is the
ordered remote name→endpoint mapping; `shuffledRoles` stands for the result
of `random.shuffle(roles)` and is constrained to a permutation of
`rolesList` in the theorems.  `none` models the `ValueError` raised when the
player count exceeds the name pool. -/
def assignRoles (participants : List (List Char × List Char))
    (playerCount : Nat) (shuffledRoles : List Role) : Option (List Player) :=
  let remoteCount := participants.length
  let playerCount := max playerCount remoteCount
  if playerCount > defaultPlayers.length then none
  else
    let npcCount := playerCount - remoteCount
    let agentNames := participants.map Prod.fst
    let names := agentNames ++ (defaultPlayers.take playerCount).take npcCount
    let urls := participants.map (fun p => some p.2) ++
      List.replicate npcCount (none : Option (List Char))
    some (zipPlayers names shuffledRoles urls)

/-- The per-player condition of `_parse_name`: the player is alive and the
lowercased name occurs inside the cleaned reply. -/
def nameMatches (clean : List Char) (p : Player) : Bool :=
  p.is_alive && containsSub (pyLower p.name) clean

/-- The scan of `_parse_name`, over the roster with the alive test folded
into the match condition (the code iterates `self.alive_players`). -/
def parseNameAux (clean : List Char) : List Player → Option Nat
  | [] => none
  | p :: rest =>
    if nameMatches clean p then some 0
    else (parseNameAux clean rest).map (· + 1)

/-- Model of `AsyncGameEnvironment._parse_name`, with
`clean = raw.strip().lower()`.  It returns the roster index of the first
living player whose lowercased name is contained in `clean` (index equality
models Python object identity). -/
def parseName (players : List Player) (raw : List Char) : Option Nat :=
  parseNameAux (pyLower (pyStrip raw)) players

/-- The mutable game-over state of `AsyncGameEnvironment`: the roster plus
the `game_over` flag and `winner`. -/
structure GameState where
  players : List Player
  game_over : Bool
  winner : Option (List Char)
deriving DecidableEq, Repr

/-- `num_wolves` of `check_game_over`: living players holding the Werewolf
role. -/
def livingWolves (players : List Player) : Nat :=
  ((players.filter (·.is_alive)).filter (fun p => p.role = Role.Werewolf)).length

/-- `num_others` of `check_game_over`: the remaining living players. -/
def livingOthers (players : List Player) : Nat :=
  (players.filter (·.is_alive)).length - livingWolves players

/-- Model of `AsyncGameEnvironment.check_game_over`. -/
def checkGameOver (s : GameState) : GameState :=
  if livingWolves s.players = 0 then
    { s with game_over := true, winner := some "Villagers".data }
  else if livingWolves s.players ≥ livingOthers s.players then
    { s with game_over := true, winner := some "Werewolves".data }
  else s

/-- Model of `votes[vote_target.name] = votes.get(vote_target.name, 0) + 1`
on an insertion-ordered dict represented as an association list. -/
def dictIncr (name : List Char) : List (List Char × Nat) → List (List Char × Nat)
  | [] => [(name, 1)]
  | (k, c) :: rest =>
    if k = name then (k, c + 1) :: rest else (k, c) :: dictIncr name rest

/-- The votes dict built by the `_vote` fan-out from the raw ballots, one
ballot per living player: each ballot is parsed with `_parse_name`;
unresolved ballots cast no vote. -/
def buildVotes (players : List Player) (ballots : List (List Char)) :
    List (List Char × Nat) :=
  ballots.foldl
    (fun acc raw =>
      match parseName players raw with
      | some i =>
        match players.get? i with
        | some p => dictIncr p.name acc
        | none => acc
      | none => acc) []

/-- Python's `max(votes.values())`: `none` models the `ValueError` raised on
an empty sequence. -/
def maxVal : List (List Char × Nat) → Option Nat
  | [] => none
  | (_, c) :: rest =>
    match maxVal rest with
    | none => some c
    | some m => some (max c m)

/-- The loop `for p in self.players: if p.name == name: p.is_alive = False;
...; break`: kill the first roster player with the given name and report
their name and role (for the `ELIMINATED` record); `none` when no player
matches, in which case the loop falls through with no effect. -/
def killFirstNamed (name : List Char) :
    List Player → List Player × Option (List Char × Role)
  | [] => ([], none)
  | p :: rest =>
    if p.name = name then ({ p with is_alive := false } :: rest, some (p.name, p.role))
    else
      let r := killFirstNamed name rest
      (p :: r.1, r.2)

/-- The elimination broadcast
`"\nThe town has eliminated {p.name}. They were a {p.role}."`. -/
def elimMessage (name : List Char) (role : Role) : List Char :=
  "\nThe town has eliminated ".data ++ name ++ ". They were a ".data ++
    roleStr role ++ ".".data

/-- The tie broadcast `"\nThere was a tie between {', '.join(eliminated)}.
No one is eliminated."`. -/
def tieMessage (names : List (List Char)) : List Char :=
  "\nThere was a tie between ".data ++ joinComma names ++
    ". No one is eliminated.".data

/-- The tally step at the end of `_phase_day` (lines 401-419) returns the
updated roster, the records appended to `game_log`, and the broadcast
message, or `none` for the `ValueError` that `max(votes.values())` raises
when no votes were cast.  `maxHolders` is the list comprehension
`[n for n, c in votes.items() if c == max_votes]`. -/
def maxHolders (votes : List (List Char × Nat)) (maxVotes : Nat) : List (List Char) :=
  (votes.filter (fun v => v.2 = maxVotes)).map Prod.fst

/-- Main body of the tally: roster update, log append, broadcast. -/
def phaseDayTally (players : List Player) (votes : List (List Char × Nat)) :
    Option (List Player × List Rec × Option (List Char)) :=
  match maxVal votes with
  | none => none
  | some maxVotes =>
    let eliminated := maxHolders votes maxVotes
    if eliminated.length = 1 then
      match eliminated.head? with
      | some name =>
        match killFirstNamed name players with
        | (players', some nr) =>
          some (players', [Rec.eliminated nr.1 nr.2], some (elimMessage nr.1 nr.2))
        | (players', none) => some (players', [], none)
      | none => some (players, [], none)
    else
      some (players, [], some (tieMessage eliminated))

/-- The whole state-changing content of `_phase_day`: discussion rounds do
not touch the roster; the ballots are parsed into the votes dict and the
tally is applied. -/
def phaseDay (players : List Player) (ballots : List (List Char)) :
    Option (List Player × List Rec × Option (List Char)) :=
  phaseDayTally players (buildVotes players ballots)

/-- Set `is_alive := false` at a roster index (`werewolf_target.is_alive =
False` mutates the object held in the list). -/
def killIdx : List Player → Nat → List Player
  | [], _ => []
  | p :: rest, 0 => { p with is_alive := false } :: rest
  | p :: rest, n + 1 => p :: killIdx rest n

/-- Name at a roster index (total helper; all uses are at valid indices). -/
def nameAt (players : List Player) (i : Nat) : List Char :=
  ((players.get? i).map Player.name).getD []

/-- Role at a roster index. -/
def roleAt (players : List Player) (i : Nat) : Role :=
  ((players.get? i).map Player.role).getD Role.Villager

/-- Alive flag at a roster index. -/
def aliveAt (players : List Player) (i : Nat) : Bool :=
  ((players.get? i).map Player.is_alive).getD false

/-- The medic's protection choice in `_phase_night`: `self.medic` is the
roster player holding the Medic role; only a living medic is prompted, and
the reply is resolved with `_parse_name`. -/
def medicTargetOf (players : List Player) (medicRaw : List Char) : Option Nat :=
  match players.findIdx? (fun p => p.role = Role.Medic) with
  | none => none
  | some mIdx =>
    if aliveAt players mIdx then parseName players medicRaw else none

/-- The seer's inspection choice in `_phase_night`, resolved the same way. -/
def seerTargetOf (players : List Player) (seerRaw : List Char) : Option Nat :=
  match players.findIdx? (fun p => p.role = Role.Seer) with
  | none => none
  | some sIdx =>
    if aliveAt players sIdx then parseName players seerRaw else none

/-- Model of `_phase_night` (lines 245-331): the werewolf is prompted
unconditionally, the medic and seer only when alive; `MEDIC_PROTECTS` and
`SEER_SEES` records are appended for resolved choices; then the kill is
resolved against the protection.  Returns the updated roster and the
records appended to `game_log`.  `none` models the `AttributeError` hit
when a special-role attribute is `None` (role absent from the roster). -/
def nightStep (players : List Player) (wolfRaw medicRaw seerRaw : List Char) :
    Option (List Player × List Rec) :=
  match players.findIdx? (fun p => p.role = Role.Werewolf),
        players.findIdx? (fun p => p.role = Role.Medic),
        players.findIdx? (fun p => p.role = Role.Seer) with
  | some _, some mIdx, some sIdx =>
    let wolfTarget := parseName players wolfRaw
    let medicTarget := medicTargetOf players medicRaw
    let medicRecs : List Rec :=
      match medicTarget with
      | some i => [Rec.medicProtects (nameAt players mIdx) (nameAt players i)]
      | none => []
    let seerRecs : List Rec :=
      match seerTargetOf players seerRaw with
      | some i =>
        [Rec.seerSees (nameAt players sIdx) (nameAt players i) (roleAt players i)]
      | none => []
    match wolfTarget with
    | some i =>
      if medicTarget = some i then
        some (players, medicRecs ++ seerRecs ++ [Rec.saved (nameAt players i)])
      else
        some (killIdx players i,
          medicRecs ++ seerRecs ++ [Rec.killed (nameAt players i) (roleAt players i)])
    | none => some (players, medicRecs ++ seerRecs)
  | _, _, _ => none

/-- One per-player entry of `get_reports`.  `voting_accuracy = none` models
the absence of the `"voting_accuracy"` key. -/
structure ReportEntry where
  role : Role
  team_win : Bool
  suspicion_score : Nat
  voting_accuracy : Option ℚ
deriving DecidableEq, Repr

/-- The `team_win` expression of `get_reports`. -/
def teamWin (winner : Option (List Char)) (role : Role) : Bool :=
  (decide (winner = some "Werewolves".data) && decide (role = Role.Werewolf)) ||
    (decide (winner = some "Villagers".data) && decide (role ≠ Role.Werewolf))

/-- Insert-or-overwrite on an insertion-ordered dict (Python dict
comprehension semantics: a repeated key overwrites in place). -/
def dictInsertEntry (k : List Char) (v : ReportEntry) :
    List (List Char × ReportEntry) → List (List Char × ReportEntry)
  | [] => [(k, v)]
  | (k', v') :: rest =>
    if k' = k then (k', v) :: rest else (k', v') :: dictInsertEntry k v rest

/-- Dict lookup; `none` models a `KeyError`. -/
def lookupEntry (k : List Char) :
    List (List Char × ReportEntry) → Option ReportEntry
  | [] => none
  | (k', v) :: rest => if k' = k then some v else lookupEntry k rest

/-- Update the entry at an existing key in place. -/
def updateEntry (k : List Char) (f : ReportEntry → ReportEntry) :
    List (List Char × ReportEntry) → List (List Char × ReportEntry)
  | [] => []
  | (k', v) :: rest =>
    if k' = k then (k', f v) :: rest else (k', v) :: updateEntry k f rest

/-- Set the `voting_accuracy` field of an entry. -/
def withAcc (q : ℚ) (e : ReportEntry) : ReportEntry :=
  { e with voting_accuracy := some q }

/-- The dict value built for one player in stage 1 of `get_reports`. -/
def initEntry (winner : Option (List Char)) (p : Player) : ReportEntry :=
  { role := p.role, team_win := teamWin winner p.role,
    suspicion_score := 0, voting_accuracy := none }

/-- Stage 1 of `get_reports`: the comprehension
`{p.name: {"role": ..., "team_win": ...} for p in self.players}`. -/
def initReports (winner : Option (List Char)) (players : List Player) :
    List (List Char × ReportEntry) :=
  players.foldl (fun acc p => dictInsertEntry p.name (initEntry winner p) acc) []

/-- The suspicion sum for one name:
`sum(1 for log in game_log if log.startswith("VOTE:") and log.split(":")[2] == name)`.
`none` models the `IndexError` when a `VOTE:`-prefixed record has fewer
than three colon-separated parts. -/
def suspicionCount (name : List Char) (gameLog : List (List Char)) : Option Nat :=
  gameLog.foldr
    (fun log acc =>
      match acc with
      | none => none
      | some n =>
        if startsWithStr "VOTE:".data log then
          match (splitColon log).get? 2 with
          | none => none
          | some t => some (if t = name then n + 1 else n)
        else some n) (some 0)

/-- Stage 2 of `get_reports`: `for name in reports:` set
`suspicion_score`. -/
def setSuspicions (gameLog : List (List Char)) :
    List (List Char × ReportEntry) → Option (List (List Char × ReportEntry))
  | [] => some []
  | (k, v) :: rest =>
    match suspicionCount k gameLog with
    | none => none
    | some n =>
      match setSuspicions gameLog rest with
      | none => none
      | some rest' => some ((k, { v with suspicion_score := n }) :: rest')

/-- `sum(1 for v in votes if reports[v.split(":")[2]]["role"] == "Werewolf")`:
`none` models the `IndexError`/`KeyError` crashes. -/
def correctCount (reports : List (List Char × ReportEntry)) :
    List (List Char) → Option Nat
  | [] => some 0
  | v :: rest =>
    match (splitColon v).get? 2 with
    | none => none
    | some t =>
      match lookupEntry t reports with
      | none => none
      | some e =>
        (correctCount reports rest).map
          (fun n => if e.role = Role.Werewolf then n + 1 else n)

/-- Stage 3 of `get_reports`: for each non-Werewolf voter with at least one
`VOTE:{name}:` record, set `voting_accuracy = correct / len(votes)`
(exact rational division models Python float division). -/
def applyAccuracies (gameLog : List (List Char)) (reports : List (List Char × ReportEntry)) :
    List Player → Option (List (List Char × ReportEntry))
  | [] => some reports
  | voter :: rest =>
    if voter.role = Role.Werewolf then applyAccuracies gameLog reports rest
    else
      let votes := gameLog.filter
        (startsWithStr ("VOTE:".data ++ voter.name ++ ":".data))
      if votes.isEmpty then applyAccuracies gameLog reports rest
      else
        match correctCount reports votes with
        | none => none
        | some correct =>
          applyAccuracies gameLog
            (updateEntry voter.name
              (withAcc ((correct : ℚ) / (votes.length : ℚ))) reports) rest

/-- Model of `AsyncGameEnvironment.get_reports` over the rendered
`game_log` strings; `none` models the uncaught exceptions of the string
parsing (never hit on well-formed logs). -/
def getReports (players : List Player) (winner : Option (List Char))
    (gameLog : List (List Char)) : Option (List (List Char × ReportEntry)) :=
  match setSuspicions gameLog (initReports winner players) with
  | none => none
  | some r1 => applyAccuracies gameLog r1 players

/-- Roster change of one day phase inside the run loop. -/
def dayAdvance (s : GameState) (ballots : List (List Char)) : Option GameState :=
  (phaseDay s.players ballots).map (fun out => { s with players := out.1 })

/-- Roster change of one night phase inside the run loop. -/
def nightAdvance (s : GameState) (w m sr : List Char) : Option GameState :=
  (nightStep s.players w m sr).map (fun out => { s with players := out.1 })

/-- Program points of the `run_game` loop that the invariant claims talk
about: the top of the loop (a Day phase is about to run) and the entry of
`_phase_night`. -/
inductive Loc
  | dayStart
  | nightStart
deriving DecidableEq, Repr

/-- Reachable states of the `run_game` loop.  Day 1 runs `_phase_day_1`,
which never changes the roster; later days run `_phase_day`; after either,
`check_game_over` runs and the loop breaks when `game_over` is set, so
`_phase_night` begins only in post-check states with `game_over` false.
After the night the same check guards the next day. -/
inductive Reach (init : GameState) : Loc → GameState → Prop
  | start : Reach init Loc.dayStart init
  | day1ToNight {s : GameState} :
      Reach init Loc.dayStart s →
      (checkGameOver s).game_over = false →
      Reach init Loc.nightStart (checkGameOver s)
  | dayToNight {s s' : GameState} (ballots : List (List Char)) :
      Reach init Loc.dayStart s →
      dayAdvance s ballots = some s' →
      (checkGameOver s').game_over = false →
      Reach init Loc.nightStart (checkGameOver s')
  | nightToDay {s s' : GameState} (w m sr : List Char) :
      Reach init Loc.nightStart s →
      nightAdvance s w m sr = some s' →
      (checkGameOver s').game_over = false →
      Reach init Loc.dayStart (checkGameOver s')

/-- Structured-log counterpart of a `VOTE` record targeting `name`. -/
def isVoteTargeting (name : List Char) : Rec → Bool
  | .vote _ t => decide (t = name)
  | _ => false

/-- Structured-log counterpart of a `VOTE` record cast by `name`. -/
def isVoteBy (name : List Char) : Rec → Bool
  | .vote v _ => decide (v = name)
  | _ => false

/-- The roster role recorded for a name (unique under distinct names). -/
def rosterRole (players : List Player) (n : List Char) : Option Role :=
  (players.find? (fun p => decide (p.name = n))).map Player.role

/-- The report entry a player holds after stages 1 and 2 of `get_reports`
(role, team win, and suspicion score set; no accuracy yet). -/
def stage2Entry (winner : Option (List Char)) (slog : List Rec)
    (p : Player) : ReportEntry :=
  { initEntry winner p with
    suspicion_score := (slog.filter (isVoteTargeting p.name)).length }

/-- Count of roster players holding a role (alive or dead). -/
def roleCount (r : Role) (players : List Player) : Nat :=
  (players.filter (fun p => p.role = r)).length

/-- Count of total werewolves on a roster (alive or dead). -/
def wolfCount (players : List Player) : Nat :=
  roleCount Role.Werewolf players

/-- A concrete six-player roster used to instantiate the theorems. -/
def wRoster : List Player :=
  [{ name := "Alice".data, role := Role.Werewolf, is_alive := true, is_remote := false },
   { name := "Bob".data, role := Role.Seer, is_alive := true, is_remote := false },
   { name := "Charlie".data, role := Role.Medic, is_alive := true, is_remote := false },
   { name := "David".data, role := Role.Villager, is_alive := true, is_remote := false },
   { name := "Eva".data, role := Role.Villager, is_alive := true, is_remote := false },
   { name := "Frank".data, role := Role.Villager, is_alive := true, is_remote := false }]

/-- The corresponding fresh game state. -/
def wInit : GameState := { players := wRoster, game_over := false, winner := none }

/-- A concrete structured event log on `wRoster`: Bob votes for Alice (the
werewolf) and for Charlie; Alice votes for Bob. -/
def wLog : List Rec :=
  [Rec.vote "Bob".data "Alice".data,
   Rec.vote "Bob".data "Charlie".data,
   Rec.vote "Alice".data "Bob".data]

/-- The night outcome on `wRoster` when the werewolf names David, the medic
protects Eva and the seer inspects Alice. -/
def wNightOut : List Player × List Rec :=
  (killIdx wRoster 3,
   [Rec.medicProtects "Charlie".data "Eva".data,
    Rec.seerSees "Bob".data "Alice".data Role.Werewolf,
    Rec.killed "David".data Role.Villager])

/-- C1: in the Day Vote phase with zero votes cast, the tally step does NOT
complete treating the outcome as "no elimination": `max(votes.values())`
raises `ValueError` on the empty votes dict (modelled as `none`), so the
game crashes instead of continuing.  This evaluates the code at the failing
input and exhibits the latent defect the spec flags. -/
theorem day_vote_empty_tally_errors (players : List Player) :
    phaseDayTally players [] = none := rfl

/-- C2: applied to a running state, the win check sets winner "Villagers"
(and gameOver) iff zero living players hold the Werewolf role; it sets
winner "Werewolves" (and gameOver) iff some werewolf lives and the living
werewolves are at least as many as the living non-werewolves; otherwise the
state is left unchanged (gameOver false, winner unset). -/
theorem check_game_over_characterization (s : GameState)
    (h1 : s.game_over = false) (h2 : s.winner = none) :
    ((checkGameOver s).game_over = true ∧
        (checkGameOver s).winner = some "Villagers".data ↔
      livingWolves s.players = 0) ∧
    ((checkGameOver s).game_over = true ∧
        (checkGameOver s).winner = some "Werewolves".data ↔
      livingWolves s.players ≠ 0 ∧
        livingWolves s.players ≥ livingOthers s.players) ∧
    (livingWolves s.players ≠ 0 →
      livingWolves s.players < livingOthers s.players → checkGameOver s = s) := by
  have hVW : ("Villagers".data : List Char) ≠ "Werewolves".data := by decide
  unfold checkGameOver
  by_cases hz : livingWolves s.players = 0
  · rw [if_pos hz]
    refine ⟨by simp [hz], ?_, fun hnz _ => absurd hz hnz⟩
    simp only [hz]
    constructor
    · rintro ⟨-, hw⟩
      simp only [Option.some.injEq] at hw
      exact absurd hw hVW
    · rintro ⟨hnz, -⟩
      exact absurd rfl hnz
  · rw [if_neg hz]
    by_cases hge : livingWolves s.players ≥ livingOthers s.players
    · rw [if_pos hge]
      refine ⟨?_, by simp [hz, hge], fun _ hlt => absurd hge (not_le.mpr hlt)⟩
      constructor
      · rintro ⟨-, hw⟩
        simp only [Option.some.injEq] at hw
        exact absurd hw.symm hVW
      · intro h
        exact absurd h hz
    · rw [if_neg hge]
      refine ⟨?_, ?_, fun _ _ => rfl⟩
      · constructor
        · rintro ⟨hg, -⟩
          rw [h1] at hg
          cases hg
        · intro h
          exact absurd h hz
      · constructor
        · rintro ⟨hg, -⟩
          rw [h1] at hg
          cases hg
        · rintro ⟨-, h⟩
          exact absurd h hge

/-- C2 witness: the characterization applied to the fresh six-player state,
where one living werewolf faces five living non-werewolves. -/
theorem check_game_over_characterization_witness :
    ((checkGameOver wInit).game_over = true ∧
        (checkGameOver wInit).winner = some "Villagers".data ↔
      livingWolves wInit.players = 0) ∧
    ((checkGameOver wInit).game_over = true ∧
        (checkGameOver wInit).winner = some "Werewolves".data ↔
      livingWolves wInit.players ≠ 0 ∧
        livingWolves wInit.players ≥ livingOthers wInit.players) ∧
    (livingWolves wInit.players ≠ 0 →
      livingWolves wInit.players < livingOthers wInit.players →
      checkGameOver wInit = wInit) :=
  check_game_over_characterization wInit rfl rfl

/-- C7 counterexample: with no remote participants and `player_count = 2`
(raised player count 2 < 3), roster construction does not fail: it returns
a two-player roster (the role list truncates), so no ConfigurationError is
raised for undersized configurations. -/
theorem assign_roles_undersized_succeeds :
    assignRoles [] 2 (rolesList 2) =
      some [{ name := "Alice".data, role := Role.Werewolf, is_alive := true,
              is_remote := false },
            { name := "Bob".data, role := Role.Seer, is_alive := true,
              is_remote := false }] := by decide

/-- C7 amended: roster construction fails (raises) if and only if the
raised player count exceeds the ten-name pool; in particular a raised
player count below 3 never fails at construction. -/
theorem assign_roles_failure_characterization
    (participants : List (List Char × List Char)) (playerCount : Nat)
    (shuffledRoles : List Role) :
    assignRoles participants playerCount shuffledRoles = none ↔
      max playerCount participants.length > 10 := by
  have h10 : defaultPlayers.length = 10 := rfl
  unfold assignRoles
  simp only [h10]
  by_cases hc : max playerCount participants.length > 10
  · rw [if_pos hc]
    simp [hc]
  · rw [if_neg hc]
    simp [hc]

theorem parseNameAux_some_iff (clean : List Char) (players : List Player) (i : Nat) :
    parseNameAux clean players = some i ↔
      ∃ p, players.get? i = some p ∧ nameMatches clean p = true ∧
        ∀ j, j < i → ∀ q, players.get? j = some q →
          nameMatches clean q = false := by
  induction players generalizing i with
  | nil => simp [parseNameAux]
  | cons p rest ih =>
    by_cases hp : nameMatches clean p = true
    · rw [parseNameAux, if_pos hp]
      constructor
      · intro h
        injection h with h
        subst h
        exact ⟨p, rfl, hp, fun j hj => absurd hj (Nat.not_lt_zero j)⟩
      · rintro ⟨q, hq, -, hleast⟩
        cases i with
        | zero => rfl
        | succ k =>
          have := hleast 0 (Nat.succ_pos k) p rfl
          rw [hp] at this
          cases this
    · have hp' : nameMatches clean p = false := by
        cases h : nameMatches clean p
        · rfl
        · exact absurd h hp
      rw [parseNameAux, if_neg hp]
      cases i with
      | zero =>
        constructor
        · intro h
          rcases Option.map_eq_some'.mp h with ⟨k, -, hk⟩
          exact absurd hk (Nat.succ_ne_zero k)
        · rintro ⟨q, hq, hm, -⟩
          injection hq with hq
          subst hq
          rw [hp'] at hm
          cases hm
      | succ k =>
        constructor
        · intro h
          rcases Option.map_eq_some'.mp h with ⟨k', hk', hkk⟩
          have hkeq : k' = k := by omega
          rw [hkeq] at hk'
          rcases (ih k).mp hk' with ⟨q, hq, hm, hleast⟩
          refine ⟨q, hq, hm, fun j hj r hr => ?_⟩
          cases j with
          | zero =>
            injection hr with hr
            subst hr
            exact hp'
          | succ j' =>
            exact hleast j' (Nat.lt_of_succ_lt_succ hj) r hr
        · rintro ⟨q, hq, hm, hleast⟩
          have hrest : parseNameAux clean rest = some k := by
            refine (ih k).mpr ⟨q, hq, hm, fun j hj r hr => ?_⟩
            exact hleast (j + 1) (Nat.succ_lt_succ hj) r hr
          rw [hrest]
          rfl

theorem parseNameAux_none_iff (clean : List Char) (players : List Player) :
    parseNameAux clean players = none ↔
      ∀ p ∈ players, nameMatches clean p = false := by
  induction players with
  | nil => simp [parseNameAux]
  | cons p rest ih =>
    by_cases hp : nameMatches clean p = true
    · rw [parseNameAux, if_pos hp]
      simp only [List.mem_cons]
      constructor
      · intro h
        cases h
      · intro h
        have := h p (Or.inl rfl)
        rw [hp] at this
        cases this
    · have hp' : nameMatches clean p = false := by
        cases h : nameMatches clean p
        · rfl
        · exact absurd h hp
      rw [parseNameAux, if_neg hp]
      simp only [Option.map_eq_none', List.mem_cons]
      rw [ih]
      constructor
      · intro h q hq
        rcases hq with hq | hq
        · subst hq
          exact hp'
        · exact h q hq
      · intro h q hq
        exact h q (Or.inr hq)

/-- C5 counterexample: a living player whose name carries a leading space.
Their lowercased name does occur as a substring of the lowercased reply,
yet `_parse_name` returns no match, because the code strips the reply
before matching (`raw.strip().lower()`), contradicting the claim as
stated. -/
theorem parse_name_unstripped_reply_mismatch :
    parseName
        [{ name := " alice".data, role := Role.Villager, is_alive := true,
           is_remote := false }] " alice".data = none ∧
      ({ name := " alice".data, role := Role.Villager, is_alive := true,
         is_remote := false } : Player).is_alive = true ∧
      containsSub (pyLower " alice".data) (pyLower " alice".data) = true := by
  decide

/-- C5 amended: name resolution returns the first player in roster order
that is alive and whose lowercased name occurs as a substring of the
whitespace-stripped, lowercased reply; if no living player's name so
occurs, it returns no match (and each call site then skips the action). -/
theorem parse_name_first_living_substring_match
    (players : List Player) (raw : List Char) :
    (∀ i, parseName players raw = some i ↔
      ∃ p, players.get? i = some p ∧
        nameMatches (pyLower (pyStrip raw)) p = true ∧
        ∀ j, j < i → ∀ q, players.get? j = some q →
          nameMatches (pyLower (pyStrip raw)) q = false) ∧
    (parseName players raw = none ↔
      ∀ p ∈ players, nameMatches (pyLower (pyStrip raw)) p = false) :=
  ⟨fun i => parseNameAux_some_iff (pyLower (pyStrip raw)) players i,
   parseNameAux_none_iff (pyLower (pyStrip raw)) players⟩

theorem zipPlayers_map_role (names : List (List Char)) (roles : List Role)
    (urls : List (Option (List Char)))
    (h1 : names.length = roles.length) (h2 : urls.length = roles.length) :
    (zipPlayers names roles urls).map Player.role = roles := by
  induction roles generalizing names urls with
  | nil =>
    cases names with
    | nil => rfl
    | cons n ns => simp at h1
  | cons r rs ih =>
    cases names with
    | nil => simp at h1
    | cons n ns =>
      cases urls with
      | nil => simp at h2
      | cons u us =>
        have hz : zipPlayers (n :: ns) (r :: rs) (u :: us) =
            { name := n, role := r, is_alive := true, is_remote := u.isSome } ::
              zipPlayers ns rs us := rfl
        rw [hz, List.map_cons]
        simp only [List.length_cons] at h1 h2
        rw [ih ns us (by omega) (by omega)]

theorem zipPlayers_map_name (names : List (List Char)) (roles : List Role)
    (urls : List (Option (List Char)))
    (h1 : names.length ≤ roles.length) (h2 : names.length ≤ urls.length) :
    (zipPlayers names roles urls).map Player.name = names := by
  induction names generalizing roles urls with
  | nil => rfl
  | cons n ns ih =>
    cases roles with
    | nil => simp at h1
    | cons r rs =>
      cases urls with
      | nil => simp at h2
      | cons u us =>
        have hz : zipPlayers (n :: ns) (r :: rs) (u :: us) =
            { name := n, role := r, is_alive := true, is_remote := u.isSome } ::
              zipPlayers ns rs us := rfl
        rw [hz, List.map_cons]
        simp only [List.length_cons] at h1 h2
        rw [ih rs us (by omega) (by omega)]

theorem assignRoles_normal (participants : List (List Char × List Char))
    (pc : Nat) (shuffled : List Role) (h : max pc participants.length ≤ 10) :
    assignRoles participants pc shuffled =
      some (zipPlayers
        (participants.map Prod.fst ++
          defaultPlayers.take (max pc participants.length - participants.length))
        shuffled
        (participants.map (fun p => some p.2) ++
          List.replicate (max pc participants.length - participants.length)
            none)) := by
  simp only [assignRoles]
  rw [if_neg (by simp only [show defaultPlayers.length = 10 from rfl]; omega)]
  rw [List.take_take, Nat.min_eq_left (Nat.sub_le _ _)]

theorem roleCount_of_map_role (r : Role) (players : List Player)
    (roles : List Role) (h : players.map Player.role = roles) :
    roleCount r players = roles.countP (fun x => decide (x = r)) := by
  rw [roleCount, ← List.countP_eq_length_filter, ← h, List.countP_map]
  rfl

/-- C6: for every player count in `[3, 10]` and at most that many remote
participants, roster construction succeeds and yields exactly that many
players, with exactly one Werewolf, one Seer, one Medic, and the remaining
players Villagers.  The shuffled role list is any permutation of the
unshuffled one, modelling `random.shuffle`. -/
theorem assign_roles_role_counts (participants : List (List Char × List Char))
    (playerCount : Nat) (shuffledRoles : List Role)
    (h3 : 3 ≤ playerCount) (h10 : playerCount ≤ 10)
    (hrc : participants.length ≤ playerCount)
    (hperm : shuffledRoles.Perm (rolesList playerCount)) :
    ∃ roster, assignRoles participants playerCount shuffledRoles = some roster ∧
      roster.length = playerCount ∧
      roleCount Role.Werewolf roster = 1 ∧
      roleCount Role.Seer roster = 1 ∧
      roleCount Role.Medic roster = 1 ∧
      roleCount Role.Villager roster = playerCount - 3 := by
  have hmax : max playerCount participants.length = playerCount :=
    Nat.max_eq_left hrc
  have hnorm := assignRoles_normal participants playerCount shuffledRoles
    (by omega)
  rw [hmax] at hnorm
  have hlen : shuffledRoles.length = playerCount := by
    have h := hperm.length_eq
    simp only [rolesList, List.length_append, List.length_replicate,
      List.length_cons, List.length_nil] at h
    omega
  have hnameslen :
      (participants.map Prod.fst ++
        defaultPlayers.take (playerCount - participants.length)).length =
        playerCount := by
    simp only [List.length_append, List.length_map, List.length_take,
      show defaultPlayers.length = 10 from rfl]
    omega
  have hurlslen :
      (participants.map (fun p => some p.2) ++
        List.replicate (playerCount - participants.length)
          (none : Option (List Char))).length = playerCount := by
    simp only [List.length_append, List.length_map, List.length_replicate]
    omega
  have hmap := zipPlayers_map_role _ shuffledRoles _
    (by rw [hnameslen, hlen]) (by rw [hurlslen, hlen])
  have hcount : ∀ r, roleCount r (zipPlayers
      (participants.map Prod.fst ++
        defaultPlayers.take (playerCount - participants.length))
      shuffledRoles
      (participants.map (fun p => some p.2) ++
        List.replicate (playerCount - participants.length) none)) =
      (rolesList playerCount).countP (fun x => decide (x = r)) := by
    intro r
    rw [roleCount_of_map_role r _ shuffledRoles hmap]
    exact hperm.countP_eq _
  refine ⟨_, hnorm, ?_, ?_, ?_, ?_, ?_⟩
  · have := congrArg List.length hmap
    rw [List.length_map] at this
    rw [this, hlen]
  · rw [hcount Role.Werewolf, rolesList, List.countP_append,
      List.countP_replicate,
      show List.countP (fun x => decide (x = Role.Werewolf))
        [Role.Werewolf, Role.Seer, Role.Medic] = 1 from rfl]
    simp
  · rw [hcount Role.Seer, rolesList, List.countP_append,
      List.countP_replicate,
      show List.countP (fun x => decide (x = Role.Seer))
        [Role.Werewolf, Role.Seer, Role.Medic] = 1 from rfl]
    simp
  · rw [hcount Role.Medic, rolesList, List.countP_append,
      List.countP_replicate,
      show List.countP (fun x => decide (x = Role.Medic))
        [Role.Werewolf, Role.Seer, Role.Medic] = 1 from rfl]
    simp
  · rw [hcount Role.Villager, rolesList, List.countP_append,
      List.countP_replicate,
      show List.countP (fun x => decide (x = Role.Villager))
        [Role.Werewolf, Role.Seer, Role.Medic] = 0 from rfl]
    simp

/-- C6 witness: one remote participant and player count 6, with the
identity shuffle. -/
theorem assign_roles_role_counts_witness :
    ∃ roster,
      assignRoles [("Zoe".data, "u".data)] 6 (rolesList 6) = some roster ∧
        roster.length = 6 ∧
        roleCount Role.Werewolf roster = 1 ∧
        roleCount Role.Seer roster = 1 ∧
        roleCount Role.Medic roster = 1 ∧
        roleCount Role.Villager roster = 6 - 3 :=
  assign_roles_role_counts [("Zoe".data, "u".data)] 6 (rolesList 6)
    (by decide) (by decide) (by decide) (List.Perm.refl _)

/-- C8 counterexample: a remote participant named "Alice" collides with the
first pool name: with `player_count = 2` the produced roster carries the
name "Alice" twice, so roster names are not pairwise distinct. -/
theorem assign_roles_duplicate_name :
    (assignRoles [("Alice".data, "u".data)] 2 (rolesList 2)).map
        (fun r => r.map Player.name) =
      some ["Alice".data, "Alice".data] ∧
    ¬ (["Alice".data, "Alice".data] : List (List Char)).Nodup :=
  ⟨by decide, by decide⟩

/-- C8 amended: provided the remote participants' names are pairwise
distinct and none of them equals one of the pool names drawn for the NPC
seats, the roster names are pairwise distinct; remote participants keep
their given names and the remaining seats take the fixed pool names in
pool order, skipping none. -/
theorem assign_roles_names_distinct (participants : List (List Char × List Char))
    (playerCount : Nat) (shuffledRoles : List Role)
    (h10 : max playerCount participants.length ≤ 10)
    (hperm : shuffledRoles.Perm
      (rolesList (max playerCount participants.length)))
    (hnd : (participants.map Prod.fst).Nodup)
    (hdisj : ∀ n ∈ participants.map Prod.fst,
      n ∉ defaultPlayers.take
        (max playerCount participants.length - participants.length)) :
    ∃ roster, assignRoles participants playerCount shuffledRoles = some roster ∧
      roster.map Player.name =
        participants.map Prod.fst ++
          defaultPlayers.take
            (max playerCount participants.length - participants.length) ∧
      (roster.map Player.name).Nodup := by
  have hnorm := assignRoles_normal participants playerCount shuffledRoles h10
  have hlen : shuffledRoles.length =
      max 3 (max playerCount participants.length) := by
    have h := hperm.length_eq
    simp only [rolesList, List.length_append, List.length_replicate,
      List.length_cons, List.length_nil] at h
    omega
  have hnameslen :
      (participants.map Prod.fst ++
        defaultPlayers.take
          (max playerCount participants.length - participants.length)).length ≤
        max playerCount participants.length := by
    simp only [List.length_append, List.length_map, List.length_take,
      show defaultPlayers.length = 10 from rfl]
    omega
  have hurlslen :
      (participants.map (fun p => some p.2) ++
        List.replicate (max playerCount participants.length - participants.length)
          (none : Option (List Char))).length = max playerCount participants.length := by
    simp only [List.length_append, List.length_map, List.length_replicate]
    omega
  have hmapname := zipPlayers_map_name
    (participants.map Prod.fst ++
      defaultPlayers.take
        (max playerCount participants.length - participants.length))
    shuffledRoles
    (participants.map (fun p => some p.2) ++
      List.replicate (max playerCount participants.length - participants.length)
        none)
    (by rw [hlen]; omega) (by rw [hurlslen]; omega)
  refine ⟨_, hnorm, hmapname, ?_⟩
  rw [hmapname]
  refine List.Nodup.append hnd ?_ ?_
  · exact List.Nodup.sublist (List.take_sublist _ _) (by decide)
  · intro a ha hmem
    exact hdisj a ha hmem

/-- C8 witness: one remote participant "Zoe" and player count 6. -/
theorem assign_roles_names_distinct_witness :
    ∃ roster,
      assignRoles [("Zoe".data, "u".data)] 6 (rolesList 6) = some roster ∧
        roster.map Player.name =
          [("Zoe".data, "u".data)].map Prod.fst ++
            defaultPlayers.take
              (max 6 [("Zoe".data, "u".data)].length -
                [("Zoe".data, "u".data)].length) ∧
        (roster.map Player.name).Nodup :=
  assign_roles_names_distinct [("Zoe".data, "u".data)] 6 (rolesList 6)
    (by decide) (List.Perm.refl _) (by decide) (by decide)

theorem aliveAt_killIdx_self (players : List Player) (i : Nat) :
    aliveAt (killIdx players i) i = false := by
  induction players generalizing i with
  | nil => cases i <;> rfl
  | cons p rest ih =>
    cases i with
    | zero => rfl
    | succ n => exact ih n

theorem aliveAt_killIdx_ne (players : List Player) (i j : Nat) (h : j ≠ i) :
    aliveAt (killIdx players i) j = aliveAt players j := by
  induction players generalizing i j with
  | nil => cases i <;> rfl
  | cons p rest ih =>
    cases i with
    | zero =>
      cases j with
      | zero => exact absurd rfl h
      | succ m => rfl
    | succ n =>
      cases j with
      | zero => rfl
      | succ m => exact ih n m (fun he => h (congrArg (· + 1) he))

theorem killIdx_map_role (players : List Player) (i : Nat) :
    (killIdx players i).map Player.role = players.map Player.role := by
  induction players generalizing i with
  | nil => cases i <;> rfl
  | cons p rest ih =>
    cases i with
    | zero => rfl
    | succ n =>
      simp only [killIdx, List.map_cons]
      rw [ih n]

theorem parseName_alive (players : List Player) (raw : List Char) (i : Nat)
    (h : parseName players raw = some i) : aliveAt players i = true := by
  rcases (parseNameAux_some_iff (pyLower (pyStrip raw)) players i).mp h with
    ⟨p, hp, hm, -⟩
  have := (Bool.and_eq_true _ _).mp hm
  rw [aliveAt, hp]
  exact this.1

/-- C3: in the Night phase, a resolved kill target equal to the medic's
resolved protection target survives with a `SAVED` record appended; a
resolved kill target different from the medic's protection (or with no
resolved protection) has its alive flag flipped to false — and no other
player's alive flag changes — with a `KILLED` record carrying the revealed
role; an unresolved kill target leaves the whole roster unchanged. -/
theorem night_resolution_cases (players : List Player) (w m sr : List Char)
    (out : List Player × List Rec)
    (h : nightStep players w m sr = some out) :
    (∀ i, parseName players w = some i → medicTargetOf players m = some i →
      out.1 = players ∧ aliveAt players i = true ∧
      out.2.getLast? = some (Rec.saved (nameAt players i))) ∧
    (∀ i, parseName players w = some i → medicTargetOf players m ≠ some i →
      out.1 = killIdx players i ∧ aliveAt out.1 i = false ∧
      (∀ j, j ≠ i → aliveAt out.1 j = aliveAt players j) ∧
      out.2.getLast? =
        some (Rec.killed (nameAt players i) (roleAt players i))) ∧
    (parseName players w = none → out.1 = players) := by
  cases hW : players.findIdx? (fun p => p.role = Role.Werewolf) with
  | none => simp [nightStep, hW] at h
  | some wIdx =>
    cases hM : players.findIdx? (fun p => p.role = Role.Medic) with
    | none => simp [nightStep, hW, hM] at h
    | some mIdx =>
      cases hS : players.findIdx? (fun p => p.role = Role.Seer) with
      | none => simp [nightStep, hW, hM, hS] at h
      | some sIdx =>
        simp only [nightStep, hW, hM, hS] at h
        cases hP : parseName players w with
        | none =>
          rw [hP] at h
          simp only [Option.some.injEq] at h
          refine ⟨?_, ?_, fun _ => by rw [← h]⟩
          · intro i h1 _
            cases h1
          · intro i h1 _
            cases h1
        | some i =>
          rw [hP] at h
          by_cases hMT : medicTargetOf players m = some i
          · rw [hMT] at h
            simp only [eq_self_iff_true, if_true, Option.some.injEq] at h
            refine ⟨?_, ?_, ?_⟩
            · intro i' h1 _
              injection h1 with h1
              subst h1
              refine ⟨by rw [← h], parseName_alive players w i hP, ?_⟩
              rw [← h]
              exact List.getLast?_concat _
            · intro i' h1 h2
              injection h1 with h1
              subst h1
              exact absurd hMT h2
            · intro h3
              cases h3
          · simp only [if_neg hMT, Option.some.injEq] at h
            refine ⟨?_, ?_, ?_⟩
            · intro i' h1 h2
              injection h1 with h1
              subst h1
              exact absurd h2 hMT
            · intro i' h1 h2
              injection h1 with h1
              subst h1
              refine ⟨by rw [← h], ?_, ?_, ?_⟩
              · rw [← h]
                exact aliveAt_killIdx_self players i
              · intro j hj
                rw [← h]
                exact aliveAt_killIdx_ne players i j hj
              · rw [← h]
                exact List.getLast?_concat _
            · intro h3
              cases h3

/-- C3 witness: on the six-player roster the werewolf names David, the
medic protects Eva (a different player) and the seer inspects Alice; David
is killed with role revealed, everyone else keeps their alive flag. -/
theorem night_resolution_cases_witness :
    (∀ i, parseName wRoster "David".data = some i →
      medicTargetOf wRoster "Eva".data = some i →
      wNightOut.1 = wRoster ∧ aliveAt wRoster i = true ∧
      wNightOut.2.getLast? = some (Rec.saved (nameAt wRoster i))) ∧
    (∀ i, parseName wRoster "David".data = some i →
      medicTargetOf wRoster "Eva".data ≠ some i →
      wNightOut.1 = killIdx wRoster i ∧ aliveAt wNightOut.1 i = false ∧
      (∀ j, j ≠ i → aliveAt wNightOut.1 j = aliveAt wRoster j) ∧
      wNightOut.2.getLast? =
        some (Rec.killed (nameAt wRoster i) (roleAt wRoster i))) ∧
    (parseName wRoster "David".data = none → wNightOut.1 = wRoster) :=
  night_resolution_cases wRoster "David".data "Eva".data "Alice".data
    wNightOut (by decide)

theorem nil_isPrefixOf_true (l : List Char) : [].isPrefixOf l = true := by
  cases l <;> rfl

theorem isPrefixOf_self_append (p t : List Char) :
    p.isPrefixOf (p ++ t) = true := by
  induction p with
  | nil => exact nil_isPrefixOf_true t
  | cons c cs ih => simp [List.isPrefixOf, ih]

theorem isPrefixOf_append_extend (needle l suf : List Char)
    (h : needle.isPrefixOf l = true) :
    needle.isPrefixOf (l ++ suf) = true := by
  induction needle generalizing l with
  | nil => exact nil_isPrefixOf_true _
  | cons c cs ih =>
    cases l with
    | nil => cases h
    | cons d ds =>
      simp only [List.isPrefixOf, Bool.and_eq_true, beq_iff_eq] at h
      simp only [List.cons_append, List.isPrefixOf, Bool.and_eq_true, beq_iff_eq]
      exact ⟨h.1, ih ds h.2⟩

theorem containsSub_nil_needle (hay : List Char) :
    containsSub [] hay = true := by
  cases hay with
  | nil => rfl
  | cons c t => rfl

theorem containsSub_self_append (needle t : List Char) :
    containsSub needle (needle ++ t) = true := by
  cases hne : needle ++ t with
  | nil => simp_all [containsSub, List.append_eq_nil]
  | cons c rest =>
    rw [containsSub, ← hne]
    simp [isPrefixOf_self_append]

theorem containsSub_cons_extend (needle hay : List Char) (c : Char)
    (h : containsSub needle hay = true) :
    containsSub needle (c :: hay) = true := by
  rw [containsSub]
  simp [h]

theorem containsSub_append_pre (needle pre hay : List Char)
    (h : containsSub needle hay = true) :
    containsSub needle (pre ++ hay) = true := by
  induction pre with
  | nil => exact h
  | cons c cs ih => exact containsSub_cons_extend needle (cs ++ hay) c ih

theorem containsSub_append_suf (needle hay suf : List Char)
    (h : containsSub needle hay = true) :
    containsSub needle (hay ++ suf) = true := by
  induction hay with
  | nil =>
    simp only [containsSub, List.isEmpty_iff] at h
    subst h
    exact containsSub_nil_needle suf
  | cons c t ih =>
    rw [containsSub] at h
    rcases Bool.or_eq_true_iff.mp h with h | h
    · rw [List.cons_append, containsSub]
      have hpre : needle.isPrefixOf ((c :: t) ++ suf) = true :=
        isPrefixOf_append_extend needle (c :: t) suf h
      rw [List.cons_append] at hpre
      rw [hpre, Bool.true_or]
    · rw [List.cons_append, containsSub, ih h, Bool.or_true]

theorem containsSub_joinComma (n : List Char) (names : List (List Char))
    (h : n ∈ names) : containsSub n (joinComma names) = true := by
  induction names with
  | nil => cases h
  | cons n' rest ih =>
    cases rest with
    | nil =>
      rcases List.mem_singleton.mp h with rfl
      have := containsSub_self_append n []
      rwa [List.append_nil] at this
    | cons n2 rest2 =>
      rcases List.mem_cons.mp h with rfl | hmem
      · rw [joinComma]
        rw [List.append_assoc]
        exact containsSub_self_append n _
        exact fun hh => List.noConfusion hh
      · rw [joinComma]
        rw [List.append_assoc]
        exact containsSub_append_pre n n' _
          (containsSub_append_pre n ", ".data _ (ih hmem))
        exact fun hh => List.noConfusion hh

theorem nodup_names_index_unique (players : List Player) (i j : Nat)
    (p q : Player) (hnames : (players.map Player.name).Nodup)
    (hi : players.get? i = some p) (hj : players.get? j = some q)
    (heq : p.name = q.name) : i = j := by
  have hmi : (players.map Player.name).get? i = some p.name := by
    rw [List.get?_map, hi]
    rfl
  have hmj : (players.map Player.name).get? j = some q.name := by
    rw [List.get?_map, hj]
    rfl
  have hilt : i < (players.map Player.name).length := by
    rw [List.length_map]
    exact (List.get?_eq_some.mp hi).1
  exact List.get?_inj hilt hnames (by rw [hmi, hmj, heq])

theorem killFirstNamed_eq (n : List Char) (players : List Player) (i : Nat)
    (p : Player) (hget : players.get? i = some p) (hname : p.name = n)
    (hfirst : ∀ j q, j < i → players.get? j = some q → q.name ≠ n) :
    killFirstNamed n players = (killIdx players i, some (n, p.role)) := by
  induction players generalizing i with
  | nil => cases hget
  | cons q rest ih =>
    cases i with
    | zero =>
      injection hget with hget
      subst hget
      subst hname
      rw [killFirstNamed, if_pos rfl]
      rfl
    | succ k =>
      have hq : q.name ≠ n := hfirst 0 q (Nat.succ_pos k) rfl
      rw [killFirstNamed, if_neg hq]
      have hrest := ih k hget
        (fun j r hj hr => hfirst (j + 1) r (Nat.succ_lt_succ hj) hr)
      rw [hrest]
      rfl

/-- C4: on a non-empty votes dict, if a single name holds the maximum vote
count, the (unique, under the data model's distinct names) roster player
with that name is marked not-alive — no other player's alive flag changes —
and the `ELIMINATED` record with revealed role is appended together with
the elimination broadcast; if two or more names tie for the maximum, the
roster is unchanged, no record is appended, and the tie broadcast names
every tied player. -/
theorem day_vote_tally_cases (players : List Player)
    (votes : List (List Char × Nat)) (m : Nat)
    (hmax : maxVal votes = some m)
    (hnames : (players.map Player.name).Nodup)
    (htargets : ∀ v ∈ votes, ∃ p ∈ players, p.is_alive = true ∧ p.name = v.1) :
    (∀ n, maxHolders votes m = [n] →
      ∃ i p, players.get? i = some p ∧ p.name = n ∧ p.is_alive = true ∧
        (∀ j q, players.get? j = some q → q.name = n → j = i) ∧
        phaseDayTally players votes =
          some (killIdx players i, [Rec.eliminated n p.role],
            some (elimMessage n p.role)) ∧
        aliveAt (killIdx players i) i = false ∧
        (∀ j, j ≠ i → aliveAt (killIdx players i) j = aliveAt players j)) ∧
    (2 ≤ (maxHolders votes m).length →
      phaseDayTally players votes =
        some (players, [], some (tieMessage (maxHolders votes m))) ∧
      ∀ n ∈ maxHolders votes m,
        containsSub n (tieMessage (maxHolders votes m)) = true) := by
  constructor
  · intro n hn
    have hnv : ∃ v ∈ votes, v.1 = n := by
      have hmem : n ∈ maxHolders votes m := by
        rw [hn]
        exact List.mem_singleton_self n
      simp only [maxHolders, List.mem_map, List.mem_filter] at hmem
      rcases hmem with ⟨v, ⟨hv, -⟩, hvn⟩
      exact ⟨v, hv, hvn⟩
    rcases hnv with ⟨v, hv, hvn⟩
    rcases htargets v hv with ⟨p, hpmem, halive, hpname⟩
    rcases List.mem_iff_get?.mp hpmem with ⟨i, hget⟩
    have hpn : p.name = n := by rw [hpname, hvn]
    have huniq : ∀ j q, players.get? j = some q → q.name = n → j = i := by
      intro j q hjget hqn
      exact nodup_names_index_unique players j i q p hnames hjget hget
        (by rw [hqn, hpn])
    have hfirst : ∀ j q, j < i → players.get? j = some q → q.name ≠ n := by
      intro j q hji hjget hqn
      exact absurd (huniq j q hjget hqn) (Nat.ne_of_lt hji)
    have hkill := killFirstNamed_eq n players i p hget hpn hfirst
    refine ⟨i, p, hget, hpn, halive, huniq, ?_, aliveAt_killIdx_self players i,
      fun j hj => aliveAt_killIdx_ne players i j hj⟩
    simp only [phaseDayTally, hmax]
    rw [hn]
    simp only [List.length_singleton, if_true, List.head?_cons, hkill]
  · intro h2
    constructor
    · simp only [phaseDayTally, hmax]
      rw [if_neg (by omega)]
    · intro n hn
      rw [tieMessage]
      exact containsSub_append_pre n "\nThere was a tie between ".data _
        (containsSub_append_suf n (joinComma (maxHolders votes m))
          ". No one is eliminated.".data (containsSub_joinComma n _ hn))

/-- C4 witness: on the six-player roster with votes Alice 2, Bob 1, the
unique max-holder Alice (roster index 0) is eliminated. -/
theorem day_vote_tally_cases_witness :
    (∀ n, maxHolders [("Alice".data, 2), ("Bob".data, 1)] 2 = [n] →
      ∃ i p, wRoster.get? i = some p ∧ p.name = n ∧ p.is_alive = true ∧
        (∀ j q, wRoster.get? j = some q → q.name = n → j = i) ∧
        phaseDayTally wRoster [("Alice".data, 2), ("Bob".data, 1)] =
          some (killIdx wRoster i, [Rec.eliminated n p.role],
            some (elimMessage n p.role)) ∧
        aliveAt (killIdx wRoster i) i = false ∧
        (∀ j, j ≠ i → aliveAt (killIdx wRoster i) j = aliveAt wRoster j)) ∧
    (2 ≤ (maxHolders [("Alice".data, 2), ("Bob".data, 1)] 2).length →
      phaseDayTally wRoster [("Alice".data, 2), ("Bob".data, 1)] =
        some (wRoster, [],
          some (tieMessage (maxHolders [("Alice".data, 2), ("Bob".data, 1)] 2))) ∧
      ∀ n ∈ maxHolders [("Alice".data, 2), ("Bob".data, 1)] 2,
        containsSub n
          (tieMessage (maxHolders [("Alice".data, 2), ("Bob".data, 1)] 2)) =
          true) :=
  day_vote_tally_cases wRoster [("Alice".data, 2), ("Bob".data, 1)] 2
    (by decide) (by decide) (by decide)

theorem checkGameOver_players (s : GameState) :
    (checkGameOver s).players = s.players := by
  unfold checkGameOver
  split
  · rfl
  · split <;> rfl

theorem checkGameOver_continue (s : GameState)
    (h : (checkGameOver s).game_over = false) :
    checkGameOver s = s ∧ livingWolves s.players ≠ 0 ∧
      livingWolves s.players < livingOthers s.players := by
  unfold checkGameOver at *
  by_cases hz : livingWolves s.players = 0
  · rw [if_pos hz] at h
    cases h
  · rw [if_neg hz] at *
    by_cases hge : livingWolves s.players ≥ livingOthers s.players
    · rw [if_pos hge] at h
      cases h
    · rw [if_neg hge] at *
      exact ⟨rfl, hz, Nat.lt_of_not_le hge⟩

theorem killFirstNamed_map_role (n : List Char) (players : List Player) :
    ((killFirstNamed n players).1).map Player.role =
      players.map Player.role := by
  induction players with
  | nil => rfl
  | cons q rest ih =>
    rw [killFirstNamed]
    by_cases hq : q.name = n
    · rw [if_pos hq]
      rfl
    · rw [if_neg hq]
      simp only [List.map_cons]
      rw [ih]

theorem phaseDayTally_map_role (players : List Player)
    (votes : List (List Char × Nat))
    (out : List Player × List Rec × Option (List Char))
    (h : phaseDayTally players votes = some out) :
    out.1.map Player.role = players.map Player.role := by
  cases hmax : maxVal votes with
  | none => simp [phaseDayTally, hmax] at h
  | some m =>
    simp only [phaseDayTally, hmax] at h
    by_cases hlen : (maxHolders votes m).length = 1
    · rw [if_pos hlen] at h
      cases hhd : (maxHolders votes m).head? with
      | none =>
        simp only [hhd] at h
        injection h with h
        rw [← h]
      | some name =>
        simp only [hhd] at h
        rcases hkf : killFirstNamed name players with ⟨players', onr⟩
        have hmapkf : players'.map Player.role = players.map Player.role := by
          have hmr := killFirstNamed_map_role name players
          rw [hkf] at hmr
          exact hmr
        cases onr with
        | none =>
          simp only [hkf] at h
          injection h with h
          rw [← h]
          exact hmapkf
        | some nr =>
          simp only [hkf] at h
          injection h with h
          rw [← h]
          exact hmapkf
    · rw [if_neg hlen] at h
      injection h with h
      rw [← h]

theorem nightStep_map_role (players : List Player) (w m sr : List Char)
    (out : List Player × List Rec) (h : nightStep players w m sr = some out) :
    out.1.map Player.role = players.map Player.role := by
  cases hW : players.findIdx? (fun p => p.role = Role.Werewolf) with
  | none => simp [nightStep, hW] at h
  | some wIdx =>
    cases hM : players.findIdx? (fun p => p.role = Role.Medic) with
    | none => simp [nightStep, hW, hM] at h
    | some mIdx =>
      cases hS : players.findIdx? (fun p => p.role = Role.Seer) with
      | none => simp [nightStep, hW, hM, hS] at h
      | some sIdx =>
        simp only [nightStep, hW, hM, hS] at h
        cases hP : parseName players w with
        | none =>
          rw [hP] at h
          injection h with h
          rw [← h]
        | some i =>
          rw [hP] at h
          by_cases hMT : medicTargetOf players m = some i
          · rw [hMT] at h
            simp only [eq_self_iff_true, if_true, Option.some.injEq] at h
            rw [← h]
          · simp only [if_neg hMT, Option.some.injEq] at h
            rw [← h]
            exact killIdx_map_role players i

theorem wolfCount_eq_of_map_role (l1 l2 : List Player)
    (h : l1.map Player.role = l2.map Player.role) :
    wolfCount l1 = wolfCount l2 := by
  rw [wolfCount, wolfCount,
    roleCount_of_map_role Role.Werewolf l1 (l1.map Player.role) rfl,
    roleCount_of_map_role Role.Werewolf l2 (l2.map Player.role) rfl, h]

theorem livingWolves_le_wolfCount (players : List Player) :
    livingWolves players ≤ wolfCount players := by
  rw [livingWolves, wolfCount, roleCount,
    List.filter_comm (fun p => decide (p.role = Role.Werewolf))
      (fun p => p.is_alive) players]
  exact List.length_filter_le _ _

theorem reach_wolfCount (init : GameState) (loc : Loc) (s : GameState)
    (h : Reach init loc s) :
    wolfCount s.players = wolfCount init.players := by
  induction h with
  | start => rfl
  | day1ToNight h1 h2 ih =>
    rw [checkGameOver_players]
    exact ih
  | dayToNight ballots h1 hday hcheck ih =>
    rw [checkGameOver_players]
    rcases Option.map_eq_some'.mp hday with ⟨out, hout, hs1⟩
    rw [← hs1]
    rw [wolfCount_eq_of_map_role _ _ (phaseDayTally_map_role _ _ out hout)]
    exact ih
  | nightToDay w m sr h1 hnight hcheck ih =>
    rw [checkGameOver_players]
    rcases Option.map_eq_some'.mp hnight with ⟨out, hout, hs1⟩
    rw [← hs1]
    rw [wolfCount_eq_of_map_role _ _ (nightStep_map_role _ _ _ _ out hout)]
    exact ih

/-- C10: in every reachable state in which the Night phase begins, the
Werewolf is alive: exactly one living werewolf exists and every roster
player holding the Werewolf role is alive, because the win check that runs
before each Night ends the game whenever zero werewolves live. -/
theorem werewolf_alive_at_night_start (init : GameState)
    (hw : wolfCount init.players = 1) (s : GameState)
    (h : Reach init Loc.nightStart s) :
    livingWolves s.players = 1 ∧
      ∀ p ∈ s.players, p.role = Role.Werewolf → p.is_alive = true := by
  have hwc : wolfCount s.players = 1 := by
    rw [reach_wolfCount init Loc.nightStart s h, hw]
  have hlw : livingWolves s.players ≠ 0 := by
    cases h with
    | day1ToNight h1 h2 =>
      rcases checkGameOver_continue _ h2 with ⟨heq, hnz, -⟩
      rw [checkGameOver_players]
      exact hnz
    | dayToNight ballots h1 hday h2 =>
      rcases checkGameOver_continue _ h2 with ⟨heq, hnz, -⟩
      rw [checkGameOver_players]
      exact hnz
  have hle := livingWolves_le_wolfCount s.players
  have hlw1 : livingWolves s.players = 1 := by omega
  refine ⟨hlw1, ?_⟩
  have hcomm : livingWolves s.players =
      ((s.players.filter (fun p => decide (p.role = Role.Werewolf))).filter
        (·.is_alive)).length := by
    rw [livingWolves, List.filter_comm]
  have hall : ∀ q ∈ s.players.filter (fun p => decide (p.role = Role.Werewolf)),
      q.is_alive = true := by
    rw [hcomm] at hlw1
    have : wolfCount s.players =
        (s.players.filter (fun p => decide (p.role = Role.Werewolf))).length :=
      rfl
    rw [this] at hwc
    have hfl := List.filter_length_eq_length.mp (by rw [hlw1, hwc])
    intro q hq
    exact hfl q hq
  intro p hp hrole
  exact hall p (List.mem_filter.mpr ⟨hp, by simp [hrole]⟩)

/-- C10 witness: after the Day-1 win check on the fresh six-player state,
the Night begins with the single werewolf alive. -/
theorem werewolf_alive_at_night_start_witness :
    livingWolves (checkGameOver wInit).players = 1 ∧
      ∀ p ∈ (checkGameOver wInit).players, p.role = Role.Werewolf →
        p.is_alive = true :=
  werewolf_alive_at_night_start wInit (by decide) (checkGameOver wInit)
    (Reach.day1ToNight Reach.start (by decide))

/-- C9 counterexample: a roster with a player whose name contains a colon.
The event log holds exactly one `VOTE` record targeting "X:Y", yet
`get_reports` computes a `suspicion_score` of 0 for that player, because
`log.split(":")[2]` recovers only the fragment "X" of the target.  The
claim's suspicion count therefore fails on this possible event log. -/
theorem report_suspicion_colon_name :
    ([Rec.vote "Eva".data "X:Y".data].filter
        (isVoteTargeting "X:Y".data)).length = 1 ∧
    getReports
        [{ name := "Eva".data, role := Role.Werewolf, is_alive := true,
           is_remote := false },
         { name := "X:Y".data, role := Role.Villager, is_alive := true,
           is_remote := false }]
        none ([Rec.vote "Eva".data "X:Y".data].map renderRec) =
      some [("Eva".data,
             { role := Role.Werewolf, team_win := false,
               suspicion_score := 0, voting_accuracy := none }),
            ("X:Y".data,
             { role := Role.Villager, team_win := false,
               suspicion_score := 0, voting_accuracy := none })] := by
  exact ⟨by decide, by decide⟩

theorem isPrefixOf_cons_ne (a b : Char) (as bs : List Char) (h : a ≠ b) :
    (a :: as).isPrefixOf (b :: bs) = false := by
  simp [List.isPrefixOf, h]

theorem startsVote_false_of_head (c : Char) (rest : List Char) (h : c ≠ 'V') :
    startsWithStr "VOTE:".data (c :: rest) = false := by
  rw [startsWithStr, show ("VOTE:".data : List Char) = 'V' :: "OTE:".data
    from rfl]
  exact isPrefixOf_cons_ne 'V' c "OTE:".data rest (fun he => h he.symm)

theorem startsWith_vote_render_vote (v t : List Char) :
    startsWithStr "VOTE:".data (renderRec (Rec.vote v t)) = true :=
  isPrefixOf_self_append "VOTE:".data (v ++ ":".data ++ t)

theorem startsWith_vote_render_other (r : Rec)
    (h : ∀ v t, r ≠ Rec.vote v t) :
    startsWithStr "VOTE:".data (renderRec r) = false := by
  cases r with
  | vote v t => exact absurd rfl (h v t)
  | phase d b => exact startsVote_false_of_head 'P' _ (by decide)
  | medicProtects a b => exact startsVote_false_of_head 'M' _ (by decide)
  | seerSees a b c => exact startsVote_false_of_head 'S' _ (by decide)
  | saved a => exact startsVote_false_of_head 'S' _ (by decide)
  | killed a b => exact startsVote_false_of_head 'K' _ (by decide)
  | eliminated a b => exact startsVote_false_of_head 'E' _ (by decide)

theorem splitColon_no_colon (s : List Char) (h : ':' ∉ s) :
    splitColon s = [s] := by
  induction s with
  | nil => rfl
  | cons c rest ih =>
    have hc : ¬(c = ':') := fun he => h (he ▸ List.mem_cons_self c rest)
    rw [splitColon, if_neg hc, ih (fun hm => h (List.mem_cons_of_mem c hm))]

theorem splitColon_append_colon (a rest : List Char) (ha : ':' ∉ a) :
    splitColon (a ++ ':' :: rest) = a :: splitColon rest := by
  induction a with
  | nil =>
    rw [List.nil_append, splitColon, if_pos rfl]
  | cons c a' ih =>
    have hc : ¬(c = ':') := fun he => ha (he ▸ List.mem_cons_self c a')
    rw [List.cons_append, splitColon, if_neg hc,
      ih (fun hm => ha (List.mem_cons_of_mem c hm))]

theorem splitColon_vote (v t : List Char) (hv : ':' ∉ v) (ht : ':' ∉ t) :
    splitColon (renderRec (Rec.vote v t)) = ["VOTE".data, v, t] := by
  have hr : renderRec (Rec.vote v t) =
      "VOTE".data ++ ':' :: (v ++ ':' :: t) := by
    rw [renderRec,
      show ("VOTE:".data : List Char) = "VOTE".data ++ [':'] from rfl,
      List.append_assoc]
    rfl
  rw [hr, splitColon_append_colon _ _ (by decide),
    splitColon_append_colon _ _ hv, splitColon_no_colon t ht]

theorem isPrefixOf_append_cancel (a x y : List Char) :
    ((a ++ x).isPrefixOf (a ++ y)) = x.isPrefixOf y := by
  induction a with
  | nil => rfl
  | cons c a' ih =>
    simp only [List.cons_append, List.isPrefixOf, beq_self_eq_true,
      Bool.true_and]
    exact ih

theorem isPrefixOf_colon_seg (a b x y : List Char)
    (ha : ':' ∉ a) (hb : ':' ∉ b) :
    ((a ++ ':' :: x).isPrefixOf (b ++ ':' :: y)) =
      (decide (a = b) && x.isPrefixOf y) := by
  induction a generalizing b with
  | nil =>
    cases b with
    | nil =>
      simp only [List.nil_append, List.isPrefixOf, beq_self_eq_true,
        Bool.true_and]
      simp
    | cons d b' =>
      have hne : (':' : Char) ≠ d :=
        fun he => hb (he ▸ List.mem_cons_self d b')
      simp only [List.nil_append, List.cons_append, List.isPrefixOf]
      simp [beq_iff_eq, hne]
  | cons c a' ih =>
    cases b with
    | nil =>
      have hne : c ≠ ':' := fun he => ha (he ▸ List.mem_cons_self c a')
      simp only [List.cons_append, List.nil_append, List.isPrefixOf]
      simp [beq_iff_eq, hne]
    | cons d b' =>
      have ha' : ':' ∉ a' := fun hm => ha (List.mem_cons_of_mem c hm)
      have hb' : ':' ∉ b' := fun hm => hb (List.mem_cons_of_mem d hm)
      simp only [List.cons_append, List.isPrefixOf, List.append_eq]
      rw [ih b' ha' hb']
      by_cases hcd : c = d
      · subst hcd
        simp [beq_iff_eq, List.cons_eq_cons, Bool.and_assoc]
      · simp [beq_iff_eq, hcd, List.cons_eq_cons]

theorem isPrefixOf_of_append_left (a b s : List Char)
    (h : ((a ++ b).isPrefixOf s) = true) : a.isPrefixOf s = true := by
  induction a generalizing s with
  | nil => exact nil_isPrefixOf_true s
  | cons c a' ih =>
    cases s with
    | nil => cases h
    | cons d s' =>
      rw [List.cons_append, List.isPrefixOf, Bool.and_eq_true] at h
      rw [List.isPrefixOf, Bool.and_eq_true]
      exact ⟨h.1, ih s' h.2⟩

theorem decide_eq_comm (a b : List Char) :
    decide (a = b) = decide (b = a) := by
  by_cases h : a = b
  · subst h
    rfl
  · simp [h, Ne.symm h]

theorem startsWith_voteBy_render (name : List Char) (r : Rec)
    (hname : ':' ∉ name) (hvfield : ∀ v t, r = Rec.vote v t → ':' ∉ v) :
    startsWithStr ("VOTE:".data ++ name ++ ":".data) (renderRec r) =
      isVoteBy name r := by
  by_cases hv : ∃ v t, r = Rec.vote v t
  · rcases hv with ⟨v, t, rfl⟩
    have hvc : ':' ∉ v := hvfield v t rfl
    have hrend : renderRec (Rec.vote v t) = "VOTE:".data ++ (v ++ ':' :: t) := by
      rw [renderRec]
      simp only [List.append_assoc]
      rfl
    have hA : ("VOTE:".data ++ name ++ ":".data : List Char) =
        "VOTE:".data ++ (name ++ ':' :: []) := rfl
    rw [startsWithStr, hrend, hA, isPrefixOf_append_cancel,
      isPrefixOf_colon_seg name v [] t hname hvc,
      nil_isPrefixOf_true, Bool.and_true]
    show decide (name = v) = decide (v = name)
    exact decide_eq_comm name v
  · have h1 : startsWithStr "VOTE:".data (renderRec r) = false :=
      startsWith_vote_render_other r (fun v t he => hv ⟨v, t, he⟩)
    have h2 : isVoteBy name r = false := by
      cases r with
      | vote v t => exact absurd ⟨v, t, rfl⟩ hv
      | phase d b => rfl
      | medicProtects a b => rfl
      | seerSees a b c => rfl
      | saved a => rfl
      | killed a b => rfl
      | eliminated a b => rfl
    rw [h2]
    cases hL : startsWithStr ("VOTE:".data ++ name ++ ":".data)
      (renderRec r) with
    | false => rfl
    | true =>
      rw [startsWithStr, show ("VOTE:".data ++ name ++ ":".data : List Char) =
        "VOTE:".data ++ (name ++ ":".data) from rfl] at hL
      have := isPrefixOf_of_append_left "VOTE:".data _ _ hL
      rw [startsWithStr] at h1
      rw [this] at h1
      cases h1

theorem filter_votesBy_renders (name : List Char) (slog : List Rec)
    (hname : ':' ∉ name)
    (hwf : ∀ r ∈ slog, ∀ v t, r = Rec.vote v t → ':' ∉ v) :
    (slog.map renderRec).filter
        (startsWithStr ("VOTE:".data ++ name ++ ":".data)) =
      (slog.filter (isVoteBy name)).map renderRec := by
  induction slog with
  | nil => rfl
  | cons r rest ih =>
    have ih' := ih (fun r' hm => hwf r' (List.mem_cons_of_mem r hm))
    simp only [List.map_cons, List.filter_cons]
    rw [startsWith_voteBy_render name r hname (hwf r (List.mem_cons_self r rest))]
    by_cases hb : isVoteBy name r = true
    · simp only [hb, if_true, List.map_cons]
      rw [ih']
    · simp only [Bool.not_eq_true] at hb
      simp only [hb, Bool.false_eq_true, if_false]
      exact ih'

theorem suspicionCount_cons (name x : List Char) (l : List (List Char)) :
    suspicionCount name (x :: l) =
      match suspicionCount name l with
      | none => none
      | some n =>
        if startsWithStr "VOTE:".data x then
          match (splitColon x).get? 2 with
          | none => none
          | some t => some (if t = name then n + 1 else n)
        else some n := rfl

theorem suspicionCount_renders (name : List Char) (slog : List Rec)
    (hwf : ∀ r ∈ slog, ∀ v t, r = Rec.vote v t → ':' ∉ v ∧ ':' ∉ t) :
    suspicionCount name (slog.map renderRec) =
      some ((slog.filter (isVoteTargeting name)).length) := by
  induction slog with
  | nil => rfl
  | cons r rest ih =>
    have ih' := ih (fun r' hm => hwf r' (List.mem_cons_of_mem r hm))
    simp only [List.map_cons, suspicionCount_cons, ih']
    by_cases hv : ∃ v t, r = Rec.vote v t
    · rcases hv with ⟨v, t, rfl⟩
      rcases hwf (Rec.vote v t) (List.mem_cons_self _ rest) v t rfl with
        ⟨hvc, htc⟩
      rw [if_pos (startsWith_vote_render_vote v t),
        splitColon_vote v t hvc htc]
      show some (if t = name then
          (rest.filter (isVoteTargeting name)).length + 1
        else (rest.filter (isVoteTargeting name)).length) =
        some (((Rec.vote v t :: rest).filter (isVoteTargeting name)).length)
      by_cases hteq : t = name
      · rw [if_pos hteq]
        have hit : isVoteTargeting name (Rec.vote v t) = true := by
          simp [isVoteTargeting, hteq]
        simp [List.filter_cons, hit]
      · rw [if_neg hteq]
        have hit : isVoteTargeting name (Rec.vote v t) = false := by
          simp [isVoteTargeting, hteq]
        simp [List.filter_cons, hit]
    · have h1 : startsWithStr "VOTE:".data (renderRec r) = false :=
        startsWith_vote_render_other r (fun v t he => hv ⟨v, t, he⟩)
      have h2 : isVoteTargeting name r = false := by
        cases r with
        | vote v t => exact absurd ⟨v, t, rfl⟩ hv
        | phase d b => rfl
        | medicProtects a b => rfl
        | seerSees a b c => rfl
        | saved a => rfl
        | killed a b => rfl
        | eliminated a b => rfl
      rw [if_neg (by rw [h1]; exact Bool.false_ne_true)]
      simp [List.filter_cons, h2]

theorem dictInsertEntry_append (k : List Char) (v : ReportEntry)
    (acc : List (List Char × ReportEntry)) (h : ∀ e ∈ acc, e.1 ≠ k) :
    dictInsertEntry k v acc = acc ++ [(k, v)] := by
  induction acc with
  | nil => rfl
  | cons e rest ih =>
    rcases e with ⟨k', v'⟩
    have hk' : k' ≠ k := h (k', v') (List.mem_cons_self _ rest)
    rw [dictInsertEntry, if_neg hk', List.cons_append,
      ih (fun e hm => h e (List.mem_cons_of_mem _ hm))]

theorem initReports_foldl (winner : Option (List Char))
    (players : List Player) (acc : List (List Char × ReportEntry))
    (hdisj : ∀ e ∈ acc, ∀ p ∈ players, e.1 ≠ p.name)
    (hnd : (players.map Player.name).Nodup) :
    players.foldl (fun acc p => dictInsertEntry p.name (initEntry winner p) acc)
        acc =
      acc ++ players.map (fun p => (p.name, initEntry winner p)) := by
  induction players generalizing acc with
  | nil => rw [List.foldl_nil, List.map_nil, List.append_nil]
  | cons p rest ih =>
    rw [List.foldl_cons]
    rw [dictInsertEntry_append p.name (initEntry winner p) acc
      (fun e hm => hdisj e hm p (List.mem_cons_self p rest))]
    rw [List.map_cons, List.nodup_cons] at hnd
    rw [ih (acc ++ [(p.name, initEntry winner p)]) ?_ hnd.2]
    · rw [List.append_assoc]
      rfl
    · intro e hm q hq
      rcases List.mem_append.mp hm with hm | hm
      · exact hdisj e hm q (List.mem_cons_of_mem p hq)
      · rcases List.mem_singleton.mp hm with rfl
        intro he
        have he' : p.name = q.name := he
        exact hnd.1 (by rw [he']; exact List.mem_map_of_mem Player.name hq)

theorem initReports_eq (winner : Option (List Char)) (players : List Player)
    (hnd : (players.map Player.name).Nodup) :
    initReports winner players =
      players.map (fun p => (p.name, initEntry winner p)) := by
  rw [initReports, initReports_foldl winner players []
    (fun e hm => absurd hm (List.not_mem_nil e)) hnd, List.nil_append]

theorem setSuspicions_map (gameLog : List (List Char))
    (l : List (List Char × ReportEntry)) (f : List Char → Nat)
    (h : ∀ kv ∈ l, suspicionCount kv.1 gameLog = some (f kv.1)) :
    setSuspicions gameLog l =
      some (l.map (fun kv => (kv.1, { kv.2 with suspicion_score := f kv.1 }))) := by
  induction l with
  | nil => rfl
  | cons kv rest ih =>
    rcases kv with ⟨k, v⟩
    simp only [setSuspicions, h (k, v) (List.mem_cons_self _ rest),
      ih (fun kv hm => h kv (List.mem_cons_of_mem _ hm)), List.map_cons]

theorem lookupEntry_updateEntry_self (k : List Char)
    (f : ReportEntry → ReportEntry) (r : List (List Char × ReportEntry)) :
    lookupEntry k (updateEntry k f r) = (lookupEntry k r).map f := by
  induction r with
  | nil => rfl
  | cons e rest ih =>
    rcases e with ⟨k', v⟩
    by_cases hk : k' = k
    · rw [updateEntry, if_pos hk, lookupEntry, if_pos hk, lookupEntry,
        if_pos hk]
      rfl
    · rw [updateEntry, if_neg hk, lookupEntry, if_neg hk, lookupEntry,
        if_neg hk, ih]

theorem lookupEntry_updateEntry_ne (k k' : List Char)
    (f : ReportEntry → ReportEntry) (r : List (List Char × ReportEntry))
    (h : k' ≠ k) :
    lookupEntry k (updateEntry k' f r) = lookupEntry k r := by
  induction r with
  | nil => rfl
  | cons e rest ih =>
    rcases e with ⟨k'', v⟩
    by_cases hk : k'' = k'
    · subst hk
      rw [updateEntry, if_pos rfl, lookupEntry, if_neg h, lookupEntry,
        if_neg h]
    · rw [updateEntry, if_neg hk]
      by_cases hkk : k'' = k
      · rw [lookupEntry, if_pos hkk, lookupEntry, if_pos hkk]
      · rw [lookupEntry, if_neg hkk, lookupEntry, if_neg hkk, ih]

theorem lookupEntry_updateEntry_isSome (k t : List Char)
    (f : ReportEntry → ReportEntry) (r : List (List Char × ReportEntry)) :
    (lookupEntry t (updateEntry k f r)).isSome =
      (lookupEntry t r).isSome := by
  by_cases hk : k = t
  · subst hk
    rw [lookupEntry_updateEntry_self]
    cases lookupEntry k r <;> rfl
  · rw [lookupEntry_updateEntry_ne t k f r hk]

theorem lookupEntry_update_acc_role (k t : List Char) (x : ℚ)
    (r : List (List Char × ReportEntry)) :
    (lookupEntry t (updateEntry k (withAcc x) r)).map ReportEntry.role =
      (lookupEntry t r).map ReportEntry.role := by
  by_cases hk : k = t
  · subst hk
    rw [lookupEntry_updateEntry_self]
    cases lookupEntry k r <;> rfl
  · rw [lookupEntry_updateEntry_ne t k _ r hk]

theorem lookupEntry_map_of_mem (players : List Player)
    (g : Player → ReportEntry) (p : Player) (hmem : p ∈ players)
    (hnd : (players.map Player.name).Nodup) :
    lookupEntry p.name (players.map (fun q => (q.name, g q))) = some (g p) := by
  induction players with
  | nil => cases hmem
  | cons q rest ih =>
    rw [List.map_cons, List.nodup_cons] at hnd
    have hnotmem : q.name ∉ rest.map Player.name := hnd.1
    have hnd' : (rest.map Player.name).Nodup := hnd.2
    rw [List.map_cons, lookupEntry]
    by_cases hq : q.name = p.name
    · rw [if_pos hq]
      rcases List.mem_cons.mp hmem with rfl | hm
      · rfl
      · exact absurd (hq ▸ List.mem_map_of_mem Player.name hm) hnotmem
    · rw [if_neg hq]
      rcases List.mem_cons.mp hmem with rfl | hm
      · exact absurd rfl hq
      · exact ih hm hnd'

theorem correctCount_congr (r1 r2 : List (List Char × ReportEntry))
    (vs : List (List Char))
    (h : ∀ t, (lookupEntry t r1).map ReportEntry.role =
      (lookupEntry t r2).map ReportEntry.role) :
    correctCount r1 vs = correctCount r2 vs := by
  induction vs with
  | nil => rfl
  | cons v rest ih =>
    cases hsp : (splitColon v).get? 2 with
    | none => simp only [correctCount, hsp]
    | some t =>
      have ht := h t
      cases h1 : lookupEntry t r1 with
      | none =>
        cases h2 : lookupEntry t r2 with
        | none => simp only [correctCount, hsp, h1, h2]
        | some e2 =>
          rw [h1, h2] at ht
          cases ht
      | some e1 =>
        cases h2 : lookupEntry t r2 with
        | none =>
          rw [h1, h2] at ht
          cases ht
        | some e2 =>
          rw [h1, h2] at ht
          have hrole : e1.role = e2.role := by
            simpa using ht
          simp only [correctCount, hsp, h1, h2, ih, hrole]

theorem correctCount_isSome (r : List (List Char × ReportEntry))
    (vs : List (List Char))
    (h : ∀ s ∈ vs, ∃ t, (splitColon s).get? 2 = some t ∧
      (lookupEntry t r).isSome = true) :
    ∃ c, correctCount r vs = some c := by
  induction vs with
  | nil => exact ⟨0, rfl⟩
  | cons v rest ih =>
    rcases h v (List.mem_cons_self v rest) with ⟨t, hsp, hsome⟩
    rcases Option.isSome_iff_exists.mp hsome with ⟨e, he⟩
    rcases ih (fun s hm => h s (List.mem_cons_of_mem v hm)) with ⟨c, hc⟩
    refine ⟨if e.role = Role.Werewolf then c + 1 else c, ?_⟩
    simp only [correctCount, hsp, he, hc, Option.map_some']

theorem applyAccuracies_lookup (gameLog : List (List Char))
    (voters : List Player) (reports : List (List Char × ReportEntry))
    (hnd : (voters.map Player.name).Nodup)
    (hsucc : ∀ v ∈ voters, v.role ≠ Role.Werewolf →
      ∀ s ∈ gameLog.filter
        (startsWithStr ("VOTE:".data ++ v.name ++ ":".data)),
        ∃ t, (splitColon s).get? 2 = some t ∧
          (lookupEntry t reports).isSome = true) :
    ∃ out, applyAccuracies gameLog reports voters = some out ∧
      (∀ k, (∀ v ∈ voters, v.name ≠ k ∨ v.role = Role.Werewolf ∨
          gameLog.filter
            (startsWithStr ("VOTE:".data ++ v.name ++ ":".data)) = []) →
        lookupEntry k out = lookupEntry k reports) ∧
      (∀ v ∈ voters, v.role ≠ Role.Werewolf →
        gameLog.filter
          (startsWithStr ("VOTE:".data ++ v.name ++ ":".data)) ≠ [] →
        ∃ c, correctCount reports
            (gameLog.filter
              (startsWithStr ("VOTE:".data ++ v.name ++ ":".data))) =
            some c ∧
          lookupEntry v.name out =
            (lookupEntry v.name reports).map
              (withAcc ((c : ℚ) /
                ((gameLog.filter
                  (startsWithStr
                    ("VOTE:".data ++ v.name ++ ":".data))).length : ℚ)))) := by
  induction voters generalizing reports with
  | nil =>
    exact ⟨reports, rfl, fun k _ => rfl,
      fun v hv => absurd hv (List.not_mem_nil v)⟩
  | cons v rest ih =>
    rw [List.map_cons, List.nodup_cons] at hnd
    have hnd' := hnd.2
    by_cases hw : v.role = Role.Werewolf
    · rw [applyAccuracies, if_pos hw]
      rcases ih reports hnd'
        (fun v' hm => hsucc v' (List.mem_cons_of_mem v hm)) with
        ⟨out, happ, h1, h2⟩
      refine ⟨out, happ, ?_, ?_⟩
      · intro k hk
        exact h1 k (fun v' hm => hk v' (List.mem_cons_of_mem v hm))
      · intro v' hm hrole hne
        rcases List.mem_cons.mp hm with rfl | hm'
        · exact absurd hw hrole
        · exact h2 v' hm' hrole hne
    · rw [applyAccuracies, if_neg hw]
      by_cases hemp : (gameLog.filter
          (startsWithStr ("VOTE:".data ++ v.name ++ ":".data))).isEmpty = true
      · rw [if_pos hemp]
        rcases ih reports hnd'
          (fun v' hm => hsucc v' (List.mem_cons_of_mem v hm)) with
          ⟨out, happ, h1, h2⟩
        refine ⟨out, happ, ?_, ?_⟩
        · intro k hk
          exact h1 k (fun v' hm => hk v' (List.mem_cons_of_mem v hm))
        · intro v' hm hrole hne
          rcases List.mem_cons.mp hm with rfl | hm'
          · exact absurd (List.isEmpty_iff.mp hemp) hne
          · exact h2 v' hm' hrole hne
      · rw [if_neg hemp]
        rcases correctCount_isSome reports _
          (hsucc v (List.mem_cons_self v rest) hw) with ⟨c, hc⟩
        rw [hc]
        have hsucc' : ∀ v' ∈ rest, v'.role ≠ Role.Werewolf →
            ∀ s ∈ gameLog.filter
              (startsWithStr ("VOTE:".data ++ v'.name ++ ":".data)),
              ∃ t, (splitColon s).get? 2 = some t ∧
                (lookupEntry t (updateEntry v.name
                  (withAcc ((c : ℚ) /
                    ((gameLog.filter
                      (startsWithStr
                        ("VOTE:".data ++ v.name ++ ":".data))).length : ℚ)))
                  reports)).isSome = true := by
          intro v' hm hrole s hs
          rcases hsucc v' (List.mem_cons_of_mem v hm) hrole s hs with
            ⟨t, hsp, hsome⟩
          exact ⟨t, hsp, by rw [lookupEntry_updateEntry_isSome]; exact hsome⟩
        rcases ih _ hnd' hsucc' with ⟨out, happ, h1, h2⟩
        refine ⟨out, happ, ?_, ?_⟩
        · intro k hk
          have hvk : v.name ≠ k := by
            rcases hk v (List.mem_cons_self v rest) with hvk | hvk | hvk
            · exact hvk
            · exact absurd hvk hw
            · rw [← List.isEmpty_iff] at hvk
              rw [hvk] at hemp
              exact absurd rfl hemp
          rw [h1 k (fun v' hm => hk v' (List.mem_cons_of_mem v hm))]
          exact lookupEntry_updateEntry_ne k v.name _ reports hvk
        · intro v' hm hrole hne
          rcases List.mem_cons.mp hm with rfl | hm'
          · refine ⟨c, hc, ?_⟩
            have hcond : ∀ q ∈ rest, q.name ≠ v'.name ∨
                q.role = Role.Werewolf ∨
                gameLog.filter
                  (startsWithStr ("VOTE:".data ++ q.name ++ ":".data)) = [] := by
              intro q hq
              left
              intro he
              exact hnd.1 (he ▸ List.mem_map_of_mem Player.name hq)
            rw [h1 v'.name hcond]
            exact lookupEntry_updateEntry_self v'.name _ reports
          · have hvv' : v.name ≠ v'.name := by
              intro he
              exact hnd.1 (he ▸ List.mem_map_of_mem Player.name hm')
            rcases h2 v' hm' hrole hne with ⟨c', hc', hlook⟩
            refine ⟨c', ?_, ?_⟩
            · rw [← hc']
              exact correctCount_congr _ _ _
                (fun t => (lookupEntry_update_acc_role v.name t _ reports).symm)
            · rw [hlook,
                lookupEntry_updateEntry_ne v'.name v.name _ reports hvv']


theorem nodup_names_mem_unique (players : List Player)
    (hnd : (players.map Player.name).Nodup) (a b : Player)
    (ha : a ∈ players) (hb : b ∈ players) (hname : a.name = b.name) :
    a = b := by
  rcases List.mem_iff_get?.mp ha with ⟨i, hi⟩
  rcases List.mem_iff_get?.mp hb with ⟨j, hj⟩
  have hij := nodup_names_index_unique players i j a b hnd hi hj hname
  rw [hij, hj] at hi
  injection hi with hba
  exact hba.symm

theorem wolf_name_iff (players : List Player) (wName : List Char)
    (hnd : (players.map Player.name).Nodup)
    (hwolf : (players.filter (fun p => p.role = Role.Werewolf)).map
      Player.name = [wName])
    (q : Player) (hq : q ∈ players) :
    q.role = Role.Werewolf ↔ q.name = wName := by
  constructor
  · intro hr
    have hmem : q ∈ players.filter (fun p => p.role = Role.Werewolf) :=
      List.mem_filter.mpr ⟨hq, by simp [hr]⟩
    have hqn : q.name ∈ [wName] :=
      hwolf ▸ List.mem_map_of_mem Player.name hmem
    simpa using hqn
  · intro hn
    have hwmem : wName ∈ (players.filter
        (fun p => p.role = Role.Werewolf)).map Player.name := by
      rw [hwolf]
      exact List.mem_singleton_self _
    rcases List.mem_map.mp hwmem with ⟨w0, hw0mem, hw0name⟩
    have hw0p : w0 ∈ players := (List.mem_filter.mp hw0mem).1
    have hw0role : w0.role = Role.Werewolf := by
      have hsat := (List.mem_filter.mp hw0mem).2
      simpa using hsat
    have hqe : q = w0 := nodup_names_mem_unique players hnd q w0 hq hw0p
      (by rw [hn, hw0name])
    rw [hqe]
    exact hw0role

theorem correctCount_value (players : List Player) (g : Player → ReportEntry)
    (hrole : ∀ p, (g p).role = p.role)
    (hnd : (players.map Player.name).Nodup) (wName : List Char)
    (hwolf : (players.filter (fun p => p.role = Role.Werewolf)).map
      Player.name = [wName])
    (svotes : List Rec)
    (hv : ∀ r ∈ svotes, ∃ v t, r = Rec.vote v t ∧ ':' ∉ v ∧ ':' ∉ t ∧
      ∃ q ∈ players, q.name = t) :
    correctCount (players.map (fun q => (q.name, g q)))
        (svotes.map renderRec) =
      some ((svotes.filter (isVoteTargeting wName)).length) := by
  induction svotes with
  | nil => rfl
  | cons r rest ihs =>
    have ih' := ihs (fun r' hm => hv r' (List.mem_cons_of_mem _ hm))
    rcases hv r (List.mem_cons_self r rest) with
      ⟨v, t, rfl, hvc, htc, q, hqmem, hqname⟩
    have hlook : lookupEntry t (players.map (fun q => (q.name, g q))) =
        some (g q) := by
      rw [← hqname]
      exact lookupEntry_map_of_mem players g q hqmem hnd
    rw [List.map_cons]
    simp only [correctCount, splitColon_vote v t hvc htc, List.get?_cons_succ,
      List.get?_cons_zero, hlook, ih', Option.map_some']
    have hiff := wolf_name_iff players wName hnd hwolf q hqmem
    by_cases hqw : q.role = Role.Werewolf
    · have ht : t = wName := by
        rw [← hqname]
        exact hiff.mp hqw
      have hit : isVoteTargeting wName (Rec.vote v t) = true := by
        simp [isVoteTargeting, ht]
      rw [if_pos (by rw [hrole q]; exact hqw)]
      simp [List.filter_cons, hit]
    · have ht : ¬(t = wName) := by
        rw [← hqname]
        intro he
        exact hqw (hiff.mpr he)
      have hit : isVoteTargeting wName (Rec.vote v t) = false := by
        simp [isVoteTargeting, ht]
      rw [if_neg (by rw [hrole q]; exact hqw)]
      simp [List.filter_cons, hit]

theorem isVoteBy_vote_shape (n : List Char) (r : Rec)
    (h : isVoteBy n r = true) : ∃ t, r = Rec.vote n t := by
  cases r with
  | vote v t =>
    have hv : v = n := by
      simpa [isVoteBy] using h
    exact ⟨t, by rw [hv]⟩
  | phase d b => cases h
  | medicProtects a b => cases h
  | seerSees a b c => cases h
  | saved a => cases h
  | killed a b => cases h
  | eliminated a b => cases h

/-- C9 amended: provided roster names are pairwise distinct and contain no
colon, for every event log the game can produce (vote records name roster
players), `get_reports` assigns every player a `suspicion_score` equal to
the number of `VOTE` records targeting them; every non-Werewolf player with
at least one cast vote gets `voting_accuracy` equal to the fraction of
their votes that targeted the unique Werewolf; and the Werewolf player's
entry never carries a `voting_accuracy` field. -/
theorem get_reports_characterization (players : List Player)
    (winner : Option (List Char)) (slog : List Rec) (wName : List Char)
    (hnames : (players.map Player.name).Nodup)
    (hnc : ∀ p ∈ players, ':' ∉ p.name)
    (hwolf : (players.filter (fun p => p.role = Role.Werewolf)).map
      Player.name = [wName])
    (hlog : ∀ r ∈ slog, ∀ v t, r = Rec.vote v t →
      (∃ p ∈ players, p.name = v) ∧ (∃ p ∈ players, p.name = t)) :
    ∃ reports, getReports players winner (slog.map renderRec) = some reports ∧
      ∀ p ∈ players, ∃ e, lookupEntry p.name reports = some e ∧
        e.role = p.role ∧
        e.suspicion_score = (slog.filter (isVoteTargeting p.name)).length ∧
        (p.role = Role.Werewolf → e.voting_accuracy = none) ∧
        (p.role ≠ Role.Werewolf → slog.filter (isVoteBy p.name) = [] →
          e.voting_accuracy = none) ∧
        (p.role ≠ Role.Werewolf → slog.filter (isVoteBy p.name) ≠ [] →
          e.voting_accuracy = some
            ((((slog.filter (isVoteBy p.name)).filter
                (isVoteTargeting wName)).length : ℚ) /
              ((slog.filter (isVoteBy p.name)).length : ℚ))) := by
  have hvfields : ∀ r ∈ slog, ∀ v t, r = Rec.vote v t → ':' ∉ v ∧ ':' ∉ t := by
    intro r hm v t he
    rcases hlog r hm v t he with ⟨⟨pv, hpv, hpvn⟩, ⟨pt, hpt, hptn⟩⟩
    exact ⟨hpvn ▸ hnc pv hpv, hptn ▸ hnc pt hpt⟩
  have h2 : setSuspicions (slog.map renderRec) (initReports winner players) =
      some (players.map (fun p => (p.name, stage2Entry winner slog p))) := by
    rw [initReports_eq winner players hnames]
    rw [setSuspicions_map (slog.map renderRec) _
      (fun n => (slog.filter (isVoteTargeting n)).length) ?_]
    · rw [List.map_map]
      rfl
    · intro kv hm
      rcases List.mem_map.mp hm with ⟨p, hp, rfl⟩
      exact suspicionCount_renders p.name slog
        (fun r hr v t he => hvfields r hr v t he)
  have hfilters : ∀ p ∈ players, (slog.map renderRec).filter
      (startsWithStr ("VOTE:".data ++ p.name ++ ":".data)) =
      (slog.filter (isVoteBy p.name)).map renderRec := by
    intro p hp
    exact filter_votesBy_renders p.name slog (hnc p hp)
      (fun r hr v t he => (hvfields r hr v t he).1)
  have hlookSome : ∀ t, (∃ q ∈ players, q.name = t) →
      (lookupEntry t (players.map
        (fun p => (p.name, stage2Entry winner slog p)))).isSome = true := by
    intro t ht
    rcases ht with ⟨q, hq, hqn⟩
    rw [← hqn, lookupEntry_map_of_mem players _ q hq hnames]
    rfl
  have hsucc : ∀ v ∈ players, v.role ≠ Role.Werewolf →
      ∀ s ∈ (slog.map renderRec).filter
        (startsWithStr ("VOTE:".data ++ v.name ++ ":".data)),
        ∃ t, (splitColon s).get? 2 = some t ∧
          (lookupEntry t (players.map
            (fun p => (p.name, stage2Entry winner slog p)))).isSome = true := by
    intro v hv hrole s hs
    rw [hfilters v hv] at hs
    rcases List.mem_map.mp hs with ⟨r, hrm, rfl⟩
    have hrs : r ∈ slog := (List.mem_filter.mp hrm).1
    have hby : isVoteBy v.name r = true := (List.mem_filter.mp hrm).2
    rcases isVoteBy_vote_shape v.name r hby with ⟨t, rfl⟩
    rcases hvfields _ hrs v.name t rfl with ⟨hvc, htc⟩
    refine ⟨t, ?_, ?_⟩
    · rw [splitColon_vote v.name t hvc htc]
      rfl
    · exact hlookSome t (hlog _ hrs v.name t rfl).2
  rcases applyAccuracies_lookup (slog.map renderRec) players
    (players.map (fun p => (p.name, stage2Entry winner slog p)))
    hnames hsucc with ⟨out, happ, hA, hB⟩
  refine ⟨out, ?_, ?_⟩
  · simp only [getReports, h2]
    exact happ
  · intro p hp
    have hdistinct : ∀ v ∈ players, v ≠ p → v.name ≠ p.name := by
      intro v hv hne he
      exact hne (nodup_names_mem_unique players hnames v p hv hp he)
    by_cases hpw : p.role = Role.Werewolf
    · have hcond : ∀ v ∈ players, v.name ≠ p.name ∨ v.role = Role.Werewolf ∨
          (slog.map renderRec).filter
            (startsWithStr ("VOTE:".data ++ v.name ++ ":".data)) = [] := by
        intro v hv
        by_cases hvp : v = p
        · subst hvp
          exact Or.inr (Or.inl hpw)
        · exact Or.inl (hdistinct v hv hvp)
      refine ⟨stage2Entry winner slog p, ?_, rfl, rfl, fun _ => rfl,
        fun _ _ => rfl, fun hne _ => absurd hpw hne⟩
      rw [hA p.name hcond]
      exact lookupEntry_map_of_mem players _ p hp hnames
    · by_cases hvot : slog.filter (isVoteBy p.name) = []
      · have hcond : ∀ v ∈ players, v.name ≠ p.name ∨
            v.role = Role.Werewolf ∨
            (slog.map renderRec).filter
              (startsWithStr ("VOTE:".data ++ v.name ++ ":".data)) = [] := by
          intro v hv
          by_cases hvp : v = p
          · subst hvp
            refine Or.inr (Or.inr ?_)
            rw [hfilters v hv, hvot]
            rfl
          · exact Or.inl (hdistinct v hv hvp)
        refine ⟨stage2Entry winner slog p, ?_, rfl, rfl,
          fun hw => absurd hw hpw, fun _ _ => rfl,
          fun _ hne => absurd hvot hne⟩
        rw [hA p.name hcond]
        exact lookupEntry_map_of_mem players _ p hp hnames
      · have hnestr : (slog.map renderRec).filter
            (startsWithStr ("VOTE:".data ++ p.name ++ ":".data)) ≠ [] := by
          rw [hfilters p hp]
          intro he
          exact hvot (List.map_eq_nil.mp he)
        rcases hB p hp hpw hnestr with ⟨c, hc, hlook⟩
        have hcval : correctCount
            (players.map (fun p => (p.name, stage2Entry winner slog p)))
            ((slog.filter (isVoteBy p.name)).map renderRec) =
            some (((slog.filter (isVoteBy p.name)).filter
              (isVoteTargeting wName)).length) := by
          refine correctCount_value players _ (fun q => rfl) hnames wName
            hwolf _ ?_
          intro r hrm
          have hrs : r ∈ slog := (List.mem_filter.mp hrm).1
          have hby : isVoteBy p.name r = true := (List.mem_filter.mp hrm).2
          rcases isVoteBy_vote_shape p.name r hby with ⟨t, rfl⟩
          rcases hvfields _ hrs p.name t rfl with ⟨hvc, htc⟩
          exact ⟨p.name, t, rfl, hvc, htc, (hlog _ hrs p.name t rfl).2⟩
        rw [hfilters p hp] at hc
        rw [hcval] at hc
        injection hc with hceq
        rw [hfilters p hp] at hlook
        rw [lookupEntry_map_of_mem players _ p hp hnames] at hlook
        refine ⟨withAcc (((c : ℚ)) /
          (((slog.filter (isVoteBy p.name)).map renderRec).length : ℚ))
          (stage2Entry winner slog p), ?_, rfl, rfl,
          fun hw => absurd hw hpw, fun _ he => absurd he hvot, ?_⟩
        · rw [hlook]
          rfl
        · intro _ _
          show some _ = some _
          rw [← hceq, List.length_map]

/-- C9 witness: on the six-player roster, Bob casts two votes of which one
names the werewolf Alice, so Bob's accuracy is 1/2; the werewolf Alice,
though she voted, gets no accuracy field. -/
theorem get_reports_characterization_witness :
    ∃ reports, getReports wRoster none (wLog.map renderRec) = some reports ∧
      ∀ p ∈ wRoster, ∃ e, lookupEntry p.name reports = some e ∧
        e.role = p.role ∧
        e.suspicion_score = (wLog.filter (isVoteTargeting p.name)).length ∧
        (p.role = Role.Werewolf → e.voting_accuracy = none) ∧
        (p.role ≠ Role.Werewolf → wLog.filter (isVoteBy p.name) = [] →
          e.voting_accuracy = none) ∧
        (p.role ≠ Role.Werewolf → wLog.filter (isVoteBy p.name) ≠ [] →
          e.voting_accuracy = some
            ((((wLog.filter (isVoteBy p.name)).filter
                (isVoteTargeting "Alice".data)).length : ℚ) /
              ((wLog.filter (isVoteBy p.name)).length : ℚ))) :=
  get_reports_characterization wRoster none wLog "Alice".data
    (by decide) (by decide) (by decide)
    (by
      intro r hm v t he
      simp only [wLog, List.mem_cons, List.not_mem_nil, or_false] at hm
      rcases hm with rfl | rfl | rfl
      all_goals
        injection he with hv ht
        subst hv
        subst ht
        exact ⟨by decide, by decide⟩)
